import Mathlib

/-!
# forecaswatch2: the graph layer (`src/c/layers/graph_layer.c`)

A shallow embedding of `graph_update_proc`, the render callback that maps the
stored forecast (temperatures and precipitation probabilities) onto pixel
geometry and issues the draw calls.

Modelling conventions.

* C `int` values are `Int`.  The quantities of this file are pixel sizes and
  sample counts of a watch display, far from the 32-bit limits, so no wrap-around
  is modelled.
* Conversion of a finite float to `int` truncates toward zero (`f2i`).
* The drawing context is the ordered list of the operations issued on it
  (`CtxOp`).

The float arithmetic of the source is embedded twice.

* First embedding (namespace `GraphLayer`).  C `float` values are exact
  rationals (`ℚ`): every float expression of the source is evaluated without
  rounding error.  A division whose divisor is zero (float `/` as well as integer
  `%`) has no defined integer result in the source; the embedding stops there
  with a `Fault` that names the source line.  It carries the statements about
  the exact quotients and about the line at which a zero divisor is met
  (C2 - C11, C14, C17, C18).
* Second embedding (namespace `GraphLayer.Ieee`).  A `float` result is rounded
  to 24 significant bits and a `double` result to 53.  A float division by zero
  gives an infinity or a NaN and the render goes on; only the integer `%` with a
  zero divisor ends it.  It carries the statements about what a render draws
  for every input and about the pixel coordinates as the source rounds them
  (C1, C12, C13, C15, C16).
-/

namespace GraphLayer

/-! ## Constants (graph_layer.c, lines 5-9) -/

/-- Adjustment for whitespace at top of font. -/
def FONT_14_OFFSET : Int := 5
/-- Minimum width a label should cover. -/
def LABEL_PADDING : Int := 17
/-- Height of the bottom axis (hour labels). -/
def BOTTOM_AXIS_H : Int := 9
/-- Width of side margins for graph entries. -/
def MARGIN_GRAPH_W : Int := 7
/-- Height of margins for the temperature plot. -/
def MARGIN_TEMP_H : Int := 7

/-! ## Host types -/

/-- A pixel position. -/
structure GPoint where
  x : Int
  y : Int
  deriving DecidableEq, Repr

/-- A rectangle: origin and size. -/
structure GRect where
  x : Int
  y : Int
  w : Int
  h : Int
  deriving DecidableEq, Repr

/-- The size of the layer bounds, `bounds.size`. -/
structure GSize where
  w : Int
  h : Int
  deriving DecidableEq, Repr

/-- The colours named in the source. -/
inductive GColor
  | GColorOrange
  | GColorWhite
  | GColorLightGray
  | GColorCobaltBlue
  | GColorPictonBlue
  | GColorRed
  deriving DecidableEq, Repr

/-- One operation on the drawing context `ctx`, with the arguments that the
source computes (font, overflow mode and alignment of `graphics_draw_text` are
constants of the source and are left out). -/
inductive CtxOp
  | graphics_context_set_stroke_color (c : GColor)
  | graphics_context_set_text_color (c : GColor)
  | graphics_context_set_fill_color (c : GColor)
  | graphics_context_set_stroke_width (n : Int)
  | graphics_draw_line (p0 p1 : GPoint)
  | graphics_draw_text (buf : String) (box : GRect)
  | gpath_draw_filled (points : List GPoint)
  | gpath_draw_outline_open (points : List GPoint)
  deriving DecidableEq, Repr

/-- The operations that put pixels on the canvas (the draw calls), as opposed to
the ones that only set a colour or a stroke width. -/
def CtxOp.isDraw : CtxOp → Bool
  | .graphics_draw_line _ _ => true
  | .graphics_draw_text _ _ => true
  | .gpath_draw_filled _ => true
  | .gpath_draw_outline_open _ => true
  | _ => false

/-- Text draw calls. -/
def CtxOp.isText : CtxOp → Bool
  | .graphics_draw_text _ _ => true
  | _ => false

/-- Line draw calls. -/
def CtxOp.isLine : CtxOp → Bool
  | .graphics_draw_line _ _ => true
  | _ => false

/-- The places of `graph_update_proc` where a divisor can be zero. -/
inductive Fault
  /-- line 42: `... / (num_entries - 1)` -/
  | entry_w_div
  /-- line 47: `... / entry_w` -/
  | entries_per_label_div
  /-- line 58: `(float) (temp - lo) / range` -/
  | temp_h_div
  /-- line 61: `i % entries_per_label` -/
  | label_mod
  /-- line 73: `(i + entries_per_label/2) % entries_per_label` -/
  | tick_mod
  deriving DecidableEq, Repr

/-! ## The data source (`c/appendix/persist.h`, `c/appendix/math.h`) -/

/-- One forecast entry. -/
structure ForecastSample where
  temperature : Int
  precipitationProbability : Nat
  deriving DecidableEq, Repr

/-- Modelled from the spec: the persistence layer (`c/appendix/persist.h`) is
not part of the source at hand.  It supplies a start hour and an ordered
sequence of samples; the temperature and the precipitation series have the
length of that sequence. -/
structure DataSource where
  start_hour : Int
  samples : List ForecastSample
  deriving DecidableEq, Repr

/-- Modelled from the spec: `persist_get_num_entries`, the sample count. -/
def persist_get_num_entries (d : DataSource) : Int := d.samples.length

/-- Modelled from the spec: `persist_get_start_hour`. -/
def persist_get_start_hour (d : DataSource) : Int := d.start_hour

/-- Modelled from the spec: `persist_get_temp_trend`, the temperature series. -/
def persist_get_temp_trend (d : DataSource) : List Int :=
  d.samples.map ForecastSample.temperature

/-- Modelled from the spec: `persist_get_precip_trend`, the precipitation
series. -/
def persist_get_precip_trend (d : DataSource) : List Nat :=
  d.samples.map ForecastSample.precipitationProbability

/-- Modelled from the spec: `min_max` (`c/appendix/math.h`) is not part of the
source at hand; the spec gives `(lo, hi) = min/max over temperatures`.  For an
empty series the spec names no value and `0` stands in. -/
def min_max (array : List Int) : Int × Int :=
  (array.foldl min (array.headD 0), array.foldl max (array.headD 0))

/-! ## Arithmetic of the source -/

/-- Conversion of a float to `int`: truncation toward zero. -/
def f2i (q : ℚ) : Int := Int.tdiv q.num q.den

/-- Float division; a zero divisor is the fault `site`. -/
def fdiv (a b : ℚ) (site : Fault) : Except Fault ℚ :=
  if b = 0 then .error site else .ok (a / b)

/-- The text that `snprintf(buf, size, "%d", v)` leaves in `buf`: the decimal
digits of `v`, cut to `size - 1` characters. -/
def snprintf_d (size : Nat) (v : Int) : String :=
  String.mk ((toString v).toList.take (size - 1))

/-! ## `graph_update_proc` -/

/-- Line 42: `float entry_w = (float) (bounds.size.w - 2 * MARGIN_GRAPH_W) / (num_entries - 1)`. -/
def entry_w (w num_entries : Int) : Except Fault ℚ :=
  fdiv ((w - 2 * MARGIN_GRAPH_W : Int) : ℚ) ((num_entries - 1 : Int) : ℚ) .entry_w_div

/-- Line 47:
`const int entries_per_label = ((float) LABEL_PADDING + (entry_w - 1)) / entry_w`. -/
def entries_per_label (entry_w : ℚ) : Except Fault Int :=
  match fdiv ((LABEL_PADDING : ℚ) + (entry_w - 1)) entry_w .entries_per_label_div with
  | .error f => .error f
  | .ok q => .ok (f2i q)

/-- Line 49: `int entry_x = MARGIN_GRAPH_W + i * entry_w`. -/
def entry_x (entry_w : ℚ) (i : Int) : Int :=
  f2i ((MARGIN_GRAPH_W : ℚ) + (i : ℚ) * entry_w)

/-- Line 53: `int precip_h = (float) precip / 100.0 * (h - BOTTOM_AXIS_H)`. -/
def precip_h (h : Int) (precip : Int) : Int :=
  f2i ((precip : ℚ) / 100 * ((h - BOTTOM_AXIS_H : Int) : ℚ))

/-- Line 54: `points_precip[i] = GPoint(entry_x, h - BOTTOM_AXIS_H - precip_h)`. -/
def point_precip (h entry_x : Int) (precip : Int) : GPoint :=
  ⟨entry_x, h - BOTTOM_AXIS_H - precip_h h precip⟩

/-- Line 58:
`int temp_h = (float) (temp - lo) / range * (h - MARGIN_TEMP_H * 2 - BOTTOM_AXIS_H)`. -/
def temp_h (h lo range temp : Int) : Except Fault Int :=
  match fdiv ((temp - lo : Int) : ℚ) (range : ℚ) .temp_h_div with
  | .error f => .error f
  | .ok q => .ok (f2i (q * ((h - MARGIN_TEMP_H * 2 - BOTTOM_AXIS_H : Int) : ℚ)))

/-- Lines 57-59: `points_temp[i] = GPoint(entry_x, h - temp_h - MARGIN_TEMP_H - BOTTOM_AXIS_H)`. -/
def point_temp (h lo range entry_x temp : Int) : Except Fault GPoint :=
  match temp_h h lo range temp with
  | .error f => .error f
  | .ok th => .ok ⟨entry_x, h - th - MARGIN_TEMP_H - BOTTOM_AXIS_H⟩

/-- Lines 63-71: the hour label of entry `i`. -/
def hour_label (h forecast_start_hour entry_x i : Int) : CtxOp :=
  .graphics_draw_text (snprintf_d 4 (Int.tmod (forecast_start_hour + i) 24))
    ⟨entry_x - 20, h - BOTTOM_AXIS_H - FONT_14_OFFSET, 40, BOTTOM_AXIS_H⟩

/-- Lines 75-77: the tick of entry `i`. -/
def tick_mark (h entry_x : Int) : CtxOp :=
  .graphics_draw_line ⟨entry_x, h - BOTTOM_AXIS_H - 0⟩ ⟨entry_x, h - BOTTOM_AXIS_H + 4⟩

/-- Lines 61-78: the axis decoration of entry `i`, an hour label, a tick or
nothing.  Both `%` have the divisor `entries_per_label`. -/
def entry_decoration (h forecast_start_hour entries_per_label entry_x i : Int) :
    Except Fault (List CtxOp) :=
  if entries_per_label = 0 then .error .label_mod
  else if Int.tmod i entries_per_label = 0 then
    .ok [hour_label h forecast_start_hour entry_x i]
  else if entries_per_label = 0 then .error .tick_mod
  else if Int.tmod (i + Int.tdiv entries_per_label 2) entries_per_label = 0 then
    .ok [tick_mark h entry_x]
  else .ok []

/-- What one pass of the loop body (lines 49-78) produces. -/
structure EntryResult where
  point_precip : GPoint
  point_temp : GPoint
  ops : List CtxOp
  deriving DecidableEq, Repr

/-- Lines 49-78: the loop body for index `i` and its sample. -/
def loop_body (h lo range forecast_start_hour entries_per_label : Int) (entry_w : ℚ)
    (i : Int) (s : ForecastSample) : Except Fault EntryResult :=
  let ex := entry_x entry_w i
  let pp := point_precip h ex s.precipitationProbability
  match point_temp h lo range ex s.temperature with
  | .error f => .error f
  | .ok pt =>
    match entry_decoration h forecast_start_hour entries_per_label ex i with
    | .error f => .error f
    | .ok ops => .ok ⟨pp, pt, ops⟩

/-- The state carried through the loop: both point arrays as filled so far, the
operations issued so far, and the fault that stopped the loop, if any. -/
structure LoopState where
  points_precip : List GPoint
  points_temp : List GPoint
  ops : List CtxOp
  fault : Option Fault
  deriving DecidableEq, Repr

/-- Lines 48-79: `for (int i = 0; i < num_entries; ++i)`, from index `i` on, over
the samples that are left. -/
def graph_loop (h lo range forecast_start_hour entries_per_label : Int) (entry_w : ℚ) :
    Nat → List ForecastSample → LoopState → LoopState
  | _, [], st => st
  | i, s :: rest, st =>
    match loop_body h lo range forecast_start_hour entries_per_label entry_w i s with
    | .error f => ⟨st.points_precip, st.points_temp, st.ops, some f⟩
    | .ok r =>
      graph_loop h lo range forecast_start_hour entries_per_label entry_w (i + 1) rest
        ⟨st.points_precip ++ [r.point_precip], st.points_temp ++ [r.point_temp],
          st.ops ++ r.ops, none⟩

/-- The result of one render: the operations issued on the drawing context, in
order, and the fault that ended the render early, if any. -/
structure Outcome where
  ops : List CtxOp
  fault : Option Fault
  deriving DecidableEq, Repr

/-- Lines 36-39: the bottom axis and the left side axis. -/
def axis_ops (w h : Int) : List CtxOp :=
  [ .graphics_context_set_stroke_color .GColorOrange,
    .graphics_draw_line ⟨0, h - BOTTOM_AXIS_H⟩ ⟨w, h - BOTTOM_AXIS_H⟩,
    .graphics_draw_line ⟨0, 0⟩ ⟨0, h - BOTTOM_AXIS_H⟩ ]

/-- Lines 43-44: colours of the labels and ticks. -/
def label_color_ops : List CtxOp :=
  [ .graphics_context_set_text_color .GColorWhite,
    .graphics_context_set_stroke_color .GColorLightGray ]

/-- Lines 82-83: the two points that complete the area under the precipitation. -/
def closing_points (w h : Int) : List GPoint :=
  [⟨w - MARGIN_GRAPH_W, h - BOTTOM_AXIS_H⟩, ⟨MARGIN_GRAPH_W, h - BOTTOM_AXIS_H⟩]

/-- Lines 85-109: the filled precipitation area, the precipitation line over the
first `num_entries` points of the same array, and the temperature line. -/
def path_ops (num_entries : Int) (points_precip points_temp : List GPoint) : List CtxOp :=
  [ .graphics_context_set_fill_color .GColorCobaltBlue,
    .gpath_draw_filled points_precip,
    .graphics_context_set_stroke_color .GColorPictonBlue,
    .graphics_context_set_stroke_width 1,
    .gpath_draw_outline_open (points_precip.take num_entries.toNat),
    .graphics_context_set_stroke_color .GColorRed,
    .graphics_context_set_stroke_width 3,
    .gpath_draw_outline_open points_temp ]

/-- Lines 13-110: `graph_update_proc`, for the layer bounds `bounds` and the
stored forecast `d`. -/
def graph_update_proc (bounds : GSize) (d : DataSource) : Outcome :=
  let w := bounds.w
  let h := bounds.h
  let num_entries := persist_get_num_entries d
  let forecast_start_hour := persist_get_start_hour d
  let temps := persist_get_temp_trend d
  let lo := (min_max temps).1
  let hi := (min_max temps).2
  let range := hi - lo
  let ops0 := axis_ops w h
  match entry_w w num_entries with
  | .error f => ⟨ops0, some f⟩
  | .ok ew =>
    let ops1 := ops0 ++ label_color_ops
    match entries_per_label ew with
    | .error f => ⟨ops1, some f⟩
    | .ok epl =>
      let st := graph_loop h lo range forecast_start_hour epl ew 0 d.samples ⟨[], [], ops1, none⟩
      match st.fault with
      | some f => ⟨st.ops, some f⟩
      | none =>
        let points_precip := st.points_precip ++ closing_points w h
        ⟨st.ops ++ path_ops num_entries points_precip st.points_temp, none⟩

/-! ## The loop, entry by entry -/

/-- The value of a computation that does not fault, and `dflt` for one that does. -/
def ok_or {α : Type} (dflt : α) : Except Fault α → α
  | .ok a => a
  | .error _ => dflt

/-- The precipitation points of the samples `l`, the first of which has index `i`. -/
def precip_points (h : Int) (ew : ℚ) (i : Nat) (l : List ForecastSample) : List GPoint :=
  (l.enumFrom i).map fun p => point_precip h (entry_x ew p.1) p.2.precipitationProbability

/-- The temperature points of the samples `l`, the first of which has index `i`. -/
def temp_points (h lo range : Int) (ew : ℚ) (i : Nat) (l : List ForecastSample) : List GPoint :=
  (l.enumFrom i).map fun p =>
    ok_or ⟨0, 0⟩ (point_temp h lo range (entry_x ew p.1) p.2.temperature)

/-- The axis decorations of the samples `l`, the first of which has index `i`, in
index order. -/
def decorations (h forecast_start_hour epl : Int) (ew : ℚ) (i : Nat)
    (l : List ForecastSample) : List CtxOp :=
  (l.enumFrom i).flatMap fun p =>
    ok_or [] (entry_decoration h forecast_start_hour epl (entry_x ew p.1) p.1)

/-! ## The label and tick conditions -/

/-- Line 61: the condition `i % entries_per_label == 0` of the hour label. -/
def is_label_index (epl : Int) (i : Nat) : Bool :=
  decide (Int.tmod i epl = 0)

/-- Lines 61 and 73: the condition of the tick, the `else if` branch:
`i % entries_per_label != 0` and `(i + entries_per_label/2) % entries_per_label == 0`. -/
def is_tick_index (epl : Int) (i : Nat) : Bool :=
  decide (Int.tmod i epl ≠ 0 ∧ Int.tmod (i + Int.tdiv epl 2) epl = 0)

/-- The scenario of the 24 hour forecast: start hour 6, temperatures
`0, 1, ..., 23`, no precipitation. -/
def scenario_24 : DataSource :=
  ⟨6, (List.range 24).map fun i => ⟨(i : Int), 0⟩⟩

/-! ## Reference definitions for the later claims -/

/-- Modelled from the spec's words (section 4.1, step 6): `entriesPerLabel =
ceil(LABEL_PADDING / entryWidth)`. -/
def entriesPerLabel_spec (entryWidth : ℚ) : Int := ⌈(LABEL_PADDING : ℚ) / entryWidth⌉

/-- The path draw calls: the filled area and the open outlines. -/
def CtxOp.isPath : CtxOp → Bool
  | .gpath_draw_filled _ => true
  | .gpath_draw_outline_open _ => true
  | _ => false

/-! ## Second embedding: IEEE arithmetic

The definitions above evaluate the float expressions of the source in exact
rational arithmetic and stop at a zero divisor.  The definitions of this section
follow the arithmetic of the source more closely:

* a `float` result is rounded to 24 significant bits and a `double` result to 53
  (round to nearest, ties to even), as is an `int` that is converted to `float`
  or `double`; the exponent range is not bounded, as the `int` range is not;
* a float division by zero does not end the render: the result is an infinity or
  a NaN (`none`), every float computed from it is again an infinity or a NaN, and
  the `int` that its conversion gives, which the C standard leaves undefined, is
  a parameter (`Undef`);
* the integer `%` with a zero divisor still ends the render with a `Fault`.
-/

namespace Ieee

/-- Rounding to the nearest integer, ties to the even one. -/
def round_half_even (t : ℚ) : Int :=
  if t - (⌊t⌋ : ℚ) < 1 / 2 then ⌊t⌋
  else if 1 / 2 < t - (⌊t⌋ : ℚ) then ⌊t⌋ + 1
  else if ⌊t⌋ % 2 = 0 then ⌊t⌋ else ⌊t⌋ + 1

/-- The unit in the last place of a positive `y` for `prec` significant bits:
`2 ^ (e - prec + 1)` where `2 ^ e <= y < 2 ^ (e + 1)`. -/
def ulp (prec : Nat) (y : ℚ) : ℚ := (2 : ℚ) ^ (Int.log 2 y - (prec : Int) + 1)

/-- Rounding of a positive `y` to `prec` significant bits. -/
def round_pos (prec : Nat) (y : ℚ) : ℚ :=
  (round_half_even (y / ulp prec y) : ℚ) * ulp prec y

/-- Rounding to `prec` significant bits, to nearest, ties to even. -/
def round_to (prec : Nat) (y : ℚ) : ℚ :=
  if y = 0 then 0 else if 0 < y then round_pos prec y else -round_pos prec (-y)

/-- The `float` nearest to `y` (IEEE binary32, 24 significant bits). -/
def binary32 (y : ℚ) : ℚ := round_to 24 y

/-- The `double` nearest to `y` (IEEE binary64, 53 significant bits). -/
def binary64 (y : ℚ) : ℚ := round_to 53 y

/-- Conversion of an `int` to `float`. -/
def i2f (n : Int) : ℚ := binary32 (n : ℚ)

/-- Conversion of an `int` to `double`. -/
def i2d (n : Int) : ℚ := binary64 (n : ℚ)

/-- The `int` values that the target gives when it converts a float that is an
infinity or a NaN, one for each conversion of the source. -/
structure Undef where
  /-- line 47 -/
  entries_per_label : Int
  /-- line 49, at index `i` -/
  entry_x : Int → Int
  /-- line 58, at index `i` -/
  temp_h : Int → Int

/-- Line 42: `float entry_w = (float) (bounds.size.w - 2 * MARGIN_GRAPH_W) / (num_entries - 1)`;
`none` when `num_entries - 1` is zero. -/
def entry_w (w num_entries : Int) : Option ℚ :=
  if num_entries - 1 = 0 then none
  else some (binary32 (i2f (w - 2 * MARGIN_GRAPH_W) / i2f (num_entries - 1)))

/-- Line 47:
`const int entries_per_label = ((float) LABEL_PADDING + (entry_w - 1)) / entry_w`. -/
def entries_per_label (u : Undef) (entry_w : Option ℚ) : Int :=
  match entry_w with
  | none => u.entries_per_label
  | some ew =>
    if ew = 0 then u.entries_per_label
    else f2i (binary32 (binary32 (i2f LABEL_PADDING + binary32 (ew - i2f 1)) / ew))

/-- Line 49: `int entry_x = MARGIN_GRAPH_W + i * entry_w`. -/
def entry_x (u : Undef) (entry_w : Option ℚ) (i : Int) : Int :=
  match entry_w with
  | none => u.entry_x i
  | some ew => f2i (binary32 (i2f MARGIN_GRAPH_W + binary32 (i2f i * ew)))

/-- Line 53: `int precip_h = (float) precip / 100.0 * (h - BOTTOM_AXIS_H)`, a
`double` expression. -/
def precip_h (h : Int) (precip : Int) : Int :=
  f2i (binary64 (binary64 (i2f precip / 100) * i2d (h - BOTTOM_AXIS_H)))

/-- Line 54: `points_precip[i] = GPoint(entry_x, h - BOTTOM_AXIS_H - precip_h)`. -/
def point_precip (h entry_x : Int) (precip : Int) : GPoint :=
  ⟨entry_x, h - BOTTOM_AXIS_H - precip_h h precip⟩

/-- Line 58:
`int temp_h = (float) (temp - lo) / range * (h - MARGIN_TEMP_H * 2 - BOTTOM_AXIS_H)`. -/
def temp_h (u : Undef) (h lo range temp i : Int) : Int :=
  if range = 0 then u.temp_h i
  else f2i (binary32 (binary32 (i2f (temp - lo) / i2f range) *
    i2f (h - MARGIN_TEMP_H * 2 - BOTTOM_AXIS_H)))

/-- Lines 57-59: `points_temp[i] = GPoint(entry_x, h - temp_h - MARGIN_TEMP_H - BOTTOM_AXIS_H)`. -/
def point_temp (u : Undef) (h lo range entry_x temp i : Int) : GPoint :=
  ⟨entry_x, h - temp_h u h lo range temp i - MARGIN_TEMP_H - BOTTOM_AXIS_H⟩

/-- Lines 49-78: the loop body for index `i` and its sample.  Both points are
stored before the decoration; only the integer `%` of the decoration can end the
pass. -/
def loop_body (u : Undef) (h lo range forecast_start_hour entries_per_label : Int)
    (entry_w : Option ℚ) (i : Int) (s : ForecastSample) : Except Fault EntryResult :=
  match entry_decoration h forecast_start_hour entries_per_label (entry_x u entry_w i) i with
  | .error f => .error f
  | .ok ops =>
    .ok ⟨point_precip h (entry_x u entry_w i) s.precipitationProbability,
      point_temp u h lo range (entry_x u entry_w i) s.temperature i, ops⟩

/-- Lines 48-79: `for (int i = 0; i < num_entries; ++i)`, from index `i` on, over
the samples that are left. -/
def graph_loop (u : Undef) (h lo range forecast_start_hour entries_per_label : Int)
    (entry_w : Option ℚ) : Nat → List ForecastSample → LoopState → LoopState
  | _, [], st => st
  | i, s :: rest, st =>
    match loop_body u h lo range forecast_start_hour entries_per_label entry_w i s with
    | .error f => ⟨st.points_precip, st.points_temp, st.ops, some f⟩
    | .ok r =>
      graph_loop u h lo range forecast_start_hour entries_per_label entry_w (i + 1) rest
        ⟨st.points_precip ++ [r.point_precip], st.points_temp ++ [r.point_temp],
          st.ops ++ r.ops, none⟩

/-- Lines 13-110: `graph_update_proc`, for the layer bounds `bounds` and the
stored forecast `d`. -/
def graph_update_proc (u : Undef) (bounds : GSize) (d : DataSource) : Outcome :=
  let w := bounds.w
  let h := bounds.h
  let num_entries := persist_get_num_entries d
  let forecast_start_hour := persist_get_start_hour d
  let temps := persist_get_temp_trend d
  let lo := (min_max temps).1
  let hi := (min_max temps).2
  let range := hi - lo
  let ew := entry_w w num_entries
  let epl := entries_per_label u ew
  let st := graph_loop u h lo range forecast_start_hour epl ew 0 d.samples
    ⟨[], [], axis_ops w h ++ label_color_ops, none⟩
  match st.fault with
  | some f => ⟨st.ops, some f⟩
  | none =>
    ⟨st.ops ++ path_ops num_entries (st.points_precip ++ closing_points w h) st.points_temp,
      none⟩

/-- The precipitation points of the samples `l`, the first of which has index `i`. -/
def precip_points (u : Undef) (h : Int) (ew : Option ℚ) (i : Nat) (l : List ForecastSample) :
    List GPoint :=
  (l.enumFrom i).map fun p => point_precip h (entry_x u ew p.1) p.2.precipitationProbability

/-- The temperature points of the samples `l`, the first of which has index `i`. -/
def temp_points (u : Undef) (h lo range : Int) (ew : Option ℚ) (i : Nat)
    (l : List ForecastSample) : List GPoint :=
  (l.enumFrom i).map fun p => point_temp u h lo range (entry_x u ew p.1) p.2.temperature p.1

/-- The axis decorations of the samples `l`, the first of which has index `i`, in
index order. -/
def decorations (u : Undef) (h forecast_start_hour epl : Int) (ew : Option ℚ) (i : Nat)
    (l : List ForecastSample) : List CtxOp :=
  (l.enumFrom i).flatMap fun p =>
    ok_or [] (entry_decoration h forecast_start_hour epl (entry_x u ew p.1) p.1)

/-- A target whose conversions of an infinity or a NaN all give `v`. -/
def undef_const (v : Int) : Undef := ⟨v, fun _ => v, fun _ => v⟩

/-- The operations of a render that runs to its end: the axes, the label
colours, the decorations in index order, and the three paths. -/
def full_ops (u : Undef) (bounds : GSize) (d : DataSource) : List CtxOp :=
  axis_ops bounds.w bounds.h ++ label_color_ops ++
    decorations u bounds.h (persist_get_start_hour d)
      (entries_per_label u (entry_w bounds.w (persist_get_num_entries d)))
      (entry_w bounds.w (persist_get_num_entries d)) 0 d.samples ++
    path_ops (persist_get_num_entries d)
      (precip_points u bounds.h (entry_w bounds.w (persist_get_num_entries d)) 0 d.samples ++
        closing_points bounds.w bounds.h)
      (temp_points u bounds.h (min_max (persist_get_temp_trend d)).1
        ((min_max (persist_get_temp_trend d)).2 - (min_max (persist_get_temp_trend d)).1)
        (entry_w bounds.w (persist_get_num_entries d)) 0 d.samples)

end Ieee

/-! # Theorems -/

/-! ## Arithmetic lemmas -/

theorem f2i_of_nonneg {q : ℚ} (hq : 0 ≤ q) : f2i q = ⌊q⌋ := by
  unfold f2i
  rw [Rat.floor_def, Int.tdiv_eq_ediv (Rat.num_nonneg.mpr hq) (by positivity)]

theorem f2i_intCast (n : Int) : f2i (n : ℚ) = n := by
  simp [f2i]

theorem fdiv_ok {a b : ℚ} (site : Fault) (hb : b ≠ 0) : fdiv a b site = .ok (a / b) := by
  simp [fdiv, hb]

theorem fdiv_zero (a : ℚ) (site : Fault) : fdiv a 0 site = .error site := by
  simp [fdiv]

/-! ## `min_max` -/

theorem temp_h_ok {h lo range temp : Int} (hr : range ≠ 0) :
    temp_h h lo range temp = .ok (f2i (((temp - lo : Int) : ℚ) / (range : ℚ) *
      ((h - MARGIN_TEMP_H * 2 - BOTTOM_AXIS_H : Int) : ℚ))) := by
  have hr' : (range : ℚ) ≠ 0 := by exact_mod_cast hr
  simp only [temp_h, fdiv_ok _ hr']

theorem point_temp_ok (h lo range ex temp : Int) (hr : range ≠ 0) :
    ∃ p, point_temp h lo range ex temp = .ok p := by
  simp only [point_temp, temp_h_ok hr]
  exact ⟨_, rfl⟩

theorem entry_decoration_ok (h s epl ex i : Int) (he : epl ≠ 0) :
    ∃ ops, entry_decoration h s epl ex i = .ok ops := by
  unfold entry_decoration
  simp only [he, if_false]
  split_ifs <;> exact ⟨_, rfl⟩

theorem entry_decoration_kind {h s epl ex i : Int} {ops : List CtxOp}
    (hok : entry_decoration h s epl ex i = .ok ops) :
    ops = [hour_label h s ex i] ∨ ops = [tick_mark h ex] ∨ ops = [] := by
  unfold entry_decoration at hok
  split_ifs at hok <;> cases hok <;> simp

theorem loop_body_ok {h lo range s epl : Int} {ew : ℚ} (i : Int) (smp : ForecastSample)
    (hr : range ≠ 0) (he : epl ≠ 0) :
    loop_body h lo range s epl ew i smp = .ok
      ⟨point_precip h (entry_x ew i) smp.precipitationProbability,
       ok_or ⟨0, 0⟩ (point_temp h lo range (entry_x ew i) smp.temperature),
       ok_or [] (entry_decoration h s epl (entry_x ew i) i)⟩ := by
  obtain ⟨p, hp⟩ := point_temp_ok h lo range (entry_x ew i) smp.temperature hr
  obtain ⟨ops, hops⟩ := entry_decoration_ok h s epl (entry_x ew i) i he
  simp only [loop_body, hp, hops, ok_or]

/-- With a nonzero range and a nonzero `entries_per_label` the loop runs through
all samples and appends one point per sample to each array and the decorations
in index order. -/
theorem graph_loop_eq (h lo range s epl : Int) (ew : ℚ) (hr : range ≠ 0) (he : epl ≠ 0) :
    ∀ (l : List ForecastSample) (i : Nat) (st : LoopState), st.fault = none →
      graph_loop h lo range s epl ew i l st =
        ⟨st.points_precip ++ precip_points h ew i l,
         st.points_temp ++ temp_points h lo range ew i l,
         st.ops ++ decorations h s epl ew i l, none⟩ := by
  intro l
  induction l with
  | nil =>
    intro i st hst
    cases st
    simp only at hst
    subst hst
    simp [graph_loop, precip_points, temp_points, decorations]
  | cons smp rest ih =>
    intro i st _
    rw [graph_loop, loop_body_ok _ _ hr he]
    simp only
    rw [ih (i + 1) _ rfl]
    simp [precip_points, temp_points, decorations, List.enumFrom_cons, List.append_assoc]

theorem entry_w_ok {w n : Int} (hn : n ≠ 1) :
    entry_w w n = .ok (((w - 2 * MARGIN_GRAPH_W : Int) : ℚ) / ((n - 1 : Int) : ℚ)) := by
  have h1 : ((n - 1 : Int) : ℚ) ≠ 0 := by
    have : n - 1 ≠ 0 := by omega
    exact_mod_cast this
  simp only [entry_w, fdiv_ok _ h1]

theorem entries_per_label_ok {ew : ℚ} (he : ew ≠ 0) :
    entries_per_label ew = .ok (f2i (((LABEL_PADDING : ℚ) + (ew - 1)) / ew)) := by
  simp only [entries_per_label, fdiv_ok _ he]

/-- A render whose entry width and `entries_per_label` are computed without fault,
with a nonzero `entries_per_label` and temperatures that are not all equal, runs to
its end: the axes, the label colours, the decorations in index order, and the
three paths. -/
theorem graph_update_proc_run (bounds : GSize) (d : DataSource) (ew : ℚ) (epl : Int)
    (hew : entry_w bounds.w (persist_get_num_entries d) = .ok ew)
    (hepl : entries_per_label ew = .ok epl) (he : epl ≠ 0)
    (hr : (min_max (persist_get_temp_trend d)).2 - (min_max (persist_get_temp_trend d)).1 ≠ 0) :
    graph_update_proc bounds d =
      ⟨axis_ops bounds.w bounds.h ++ label_color_ops ++
        decorations bounds.h (persist_get_start_hour d) epl ew 0 d.samples ++
        path_ops (persist_get_num_entries d)
          (precip_points bounds.h ew 0 d.samples ++ closing_points bounds.w bounds.h)
          (temp_points bounds.h (min_max (persist_get_temp_trend d)).1
            ((min_max (persist_get_temp_trend d)).2 - (min_max (persist_get_temp_trend d)).1)
            ew 0 d.samples), none⟩ := by
  have hl := graph_loop_eq bounds.h (min_max (persist_get_temp_trend d)).1 _
    (persist_get_start_hour d) epl ew hr he d.samples 0
    ⟨[], [], axis_ops bounds.w bounds.h ++ label_color_ops, none⟩ rfl
  simp only [Nat.cast_zero] at hl
  simp only [graph_update_proc, hew, hepl, hl, List.nil_append]


/-- When all temperatures are equal the render over at least one sample stops at
the first temperature height, line 58, after the axes and before any label. -/
theorem graph_update_proc_zero_range (bounds : GSize) (d : DataSource)
    (hN : 2 ≤ persist_get_num_entries d) (hw : bounds.w ≠ 2 * MARGIN_GRAPH_W)
    (hr : (min_max (persist_get_temp_trend d)).1 = (min_max (persist_get_temp_trend d)).2) :
    graph_update_proc bounds d =
      ⟨axis_ops bounds.w bounds.h ++ label_color_ops, some .temp_h_div⟩ := by
  have hn1 : persist_get_num_entries d ≠ 1 := by omega
  have hne : ((bounds.w - 2 * MARGIN_GRAPH_W : Int) : ℚ) /
      ((persist_get_num_entries d - 1 : Int) : ℚ) ≠ 0 := by
    have h1 : ((persist_get_num_entries d - 1 : Int) : ℚ) ≠ 0 := by
      have : persist_get_num_entries d - 1 ≠ 0 := by omega
      exact_mod_cast this
    have h2 : ((bounds.w - 2 * MARGIN_GRAPH_W : Int) : ℚ) ≠ 0 := by
      have : bounds.w - 2 * MARGIN_GRAPH_W ≠ 0 := by omega
      exact_mod_cast this
    exact div_ne_zero h2 h1
  obtain ⟨s, samples⟩ := d
  cases samples with
  | nil => simp [persist_get_num_entries] at hN
  | cons smp rest =>
    simp only [graph_update_proc, entry_w_ok hn1, entries_per_label_ok hne, graph_loop,
      loop_body, point_temp, temp_h, hr, sub_self, Int.cast_zero, fdiv_zero]

/-! ## Shape of a render that runs to its end -/

theorem entry_decoration_eq {h s epl ex : Int} (i : Nat) (he : epl ≠ 0) :
    entry_decoration h s epl ex i =
      if is_label_index epl i then .ok [hour_label h s ex i]
      else if is_tick_index epl i then .ok [tick_mark h ex]
      else .ok [] := by
  unfold entry_decoration is_label_index is_tick_index
  by_cases h1 : Int.tmod i epl = 0
  · simp [he, h1]
  · by_cases h2 : Int.tmod (i + Int.tdiv epl 2) epl = 0
    · simp [he, h1, h2]
    · simp [he, h1, h2]

theorem is_tick_not_label {epl : Int} {i : Nat} (h : is_tick_index epl i = true) :
    is_label_index epl i = false := by
  simp only [is_tick_index, decide_eq_true_eq] at h
  simp [is_label_index, h.1]

/-- The hour labels among the decorations: one for each index that meets the
label condition, in index order. -/
theorem decorations_text {h s epl : Int} {ew : ℚ} (he : epl ≠ 0) :
    ∀ (l : List ForecastSample) (i : Nat),
      (decorations h s epl ew i l).filter CtxOp.isText =
        ((List.range' i l.length).filter (is_label_index epl)).map
          fun (j : Nat) => hour_label h s (entry_x ew j) j := by
  intro l
  induction l with
  | nil => intro i; simp [decorations]
  | cons smp rest ih =>
    intro i
    have ih' := ih (i + 1)
    simp only [decorations, List.enumFrom_cons, List.flatMap_cons, List.filter_append,
      List.length_cons, List.range'_succ] at ih' ⊢
    rw [ih', entry_decoration_eq i he]
    by_cases h1 : is_label_index epl i = true
    · simp [h1, ok_or, hour_label, CtxOp.isText]
    · by_cases h2 : is_tick_index epl i = true
      · simp [h1, h2, ok_or, tick_mark, CtxOp.isText]
      · simp [h1, h2, ok_or]

/-- The ticks among the decorations: one for each index that meets the tick
condition, in index order. -/
theorem decorations_line {h s epl : Int} {ew : ℚ} (he : epl ≠ 0) :
    ∀ (l : List ForecastSample) (i : Nat),
      (decorations h s epl ew i l).filter CtxOp.isLine =
        ((List.range' i l.length).filter (is_tick_index epl)).map
          fun (j : Nat) => tick_mark h (entry_x ew j) := by
  intro l
  induction l with
  | nil => intro i; simp [decorations]
  | cons smp rest ih =>
    intro i
    have ih' := ih (i + 1)
    simp only [decorations, List.enumFrom_cons, List.flatMap_cons, List.filter_append,
      List.length_cons, List.range'_succ] at ih' ⊢
    rw [ih', entry_decoration_eq i he]
    by_cases h1 : is_label_index epl i = true
    · have h2 : is_tick_index epl i = false := by
        cases h3 : is_tick_index epl i
        · rfl
        · rw [is_tick_not_label h3] at h1
          cases h1
      simp [h1, h2, ok_or, hour_label, CtxOp.isLine]
    · by_cases h2 : is_tick_index epl i = true
      · simp [h1, h2, ok_or, tick_mark, CtxOp.isLine]
      · simp [h1, h2, ok_or]

/-- The text draw calls of a render that runs to its end are those of its
decorations. -/
theorem full_ops_text (w h n : Int) (decos : List CtxOp) (pp pt : List GPoint) :
    (axis_ops w h ++ label_color_ops ++ decos ++ path_ops n pp pt).filter CtxOp.isText =
      decos.filter CtxOp.isText := by
  simp [axis_ops, label_color_ops, path_ops, List.filter_append, CtxOp.isText]

/-- The line draw calls of a render that runs to its end are the two axes and
the lines of its decorations. -/
theorem full_ops_line (w h n : Int) (decos : List CtxOp) (pp pt : List GPoint) :
    (axis_ops w h ++ label_color_ops ++ decos ++ path_ops n pp pt).filter CtxOp.isLine =
      [ .graphics_draw_line ⟨0, h - BOTTOM_AXIS_H⟩ ⟨w, h - BOTTOM_AXIS_H⟩,
        .graphics_draw_line ⟨0, 0⟩ ⟨0, h - BOTTOM_AXIS_H⟩ ] ++ decos.filter CtxOp.isLine := by
  simp [axis_ops, label_color_ops, path_ops, List.filter_append, CtxOp.isLine]

theorem snprintf_d_small (v : Int) (h0 : 0 ≤ v) (h1 : v < 24) :
    snprintf_d 4 v = toString v := by
  interval_cases v <;> rfl

theorem entry_w_144_24 : entry_w 144 24 = .ok (130 / 23) := by
  norm_num [entry_w, fdiv, MARGIN_GRAPH_W]

theorem entries_per_label_144_24 : entries_per_label (130 / 23) = .ok 3 := by
  norm_num [entries_per_label, fdiv, LABEL_PADDING, f2i]
  rfl

theorem is_label_index_three (i : Nat) : is_label_index 3 i = decide (i % 3 = 0) := by
  unfold is_label_index
  rw [Int.tmod_eq_emod (Int.ofNat_nonneg i) (by decide)]
  congr 1
  apply propext
  omega

theorem is_tick_index_three (i : Nat) : is_tick_index 3 i = decide (i % 3 = 2) := by
  unfold is_tick_index
  have h2 : Int.tdiv 3 2 = 1 := by decide
  rw [h2, Int.tmod_eq_emod (Int.ofNat_nonneg i) (by decide),
    Int.tmod_eq_emod (by omega) (by decide)]
  congr 1
  apply propext
  omega

/-- C2, what the code does instead.  For every sample set with `N >= 2` whose
temperatures are all equal (`lo = hi`) and every canvas whose width is not
`2 * MARGIN_GRAPH_W`, the first temperature height divides by `range = 0` (line
58): the render stops there, after the axes and the label colours, and no
temperature point receives a y-coordinate. -/
theorem C2_zero_range_divides_by_zero (bounds : GSize) (d : DataSource)
    (hN : 2 ≤ persist_get_num_entries d) (hw : bounds.w ≠ 2 * MARGIN_GRAPH_W)
    (hr : (min_max (persist_get_temp_trend d)).1 = (min_max (persist_get_temp_trend d)).2) :
    (∀ temp : Int, temp_h bounds.h (min_max (persist_get_temp_trend d)).1
        ((min_max (persist_get_temp_trend d)).2 - (min_max (persist_get_temp_trend d)).1) temp =
          .error .temp_h_div) ∧
    graph_update_proc bounds d =
      ⟨axis_ops bounds.w bounds.h ++ label_color_ops, some .temp_h_div⟩ := by
  refine ⟨fun temp => ?_, graph_update_proc_zero_range bounds d hN hw hr⟩
  simp [temp_h, hr, fdiv]

/-- Two samples of 20 degrees on a 144 x 60 canvas: the render stops on the zero
range. -/
theorem C2_zero_range_divides_by_zero_witness :
    (2 ≤ persist_get_num_entries ⟨6, [⟨20, 0⟩, ⟨20, 0⟩]⟩) ∧
    (min_max (persist_get_temp_trend ⟨6, [⟨20, 0⟩, ⟨20, 0⟩]⟩)) = (20, 20) ∧
    (graph_update_proc ⟨144, 60⟩ ⟨6, [⟨20, 0⟩, ⟨20, 0⟩]⟩).fault = some .temp_h_div :=
  ⟨by decide, by decide,
   by rw [(C2_zero_range_divides_by_zero ⟨144, 60⟩ ⟨6, [⟨20, 0⟩, ⟨20, 0⟩]⟩
      (by decide) (by decide) (by decide)).2]⟩

/-! ## C3: the temperature band -/

/-- C4, what the code does instead.  On the 144 pixel wide canvas with 24 samples
the entry width is `130/23` and the code computes `entries_per_label = 3`, so two
consecutive labels are `3 * 130/23 = 390/23` pixels apart, which is less than
`LABEL_PADDING = 17`. -/
theorem C4_label_spacing_below_padding :
    entry_w 144 24 = .ok (130 / 23) ∧
    entries_per_label (130 / 23) = .ok 3 ∧
    ((3 : Int) : ℚ) * (130 / 23) < (LABEL_PADDING : ℚ) := by
  refine ⟨?_, ?_, ?_⟩
  · norm_num [entry_w, fdiv, MARGIN_GRAPH_W]
  · norm_num [entries_per_label, fdiv, LABEL_PADDING, f2i]
    rfl
  · norm_num [LABEL_PADDING]

/-- C5, what the code does instead.  On the 144 pixel wide canvas with 24 samples
(entry width `130/23`) the add-(divisor-1) expression of line 47 truncates
`(17 + (130/23 - 1)) / (130/23) = 249/65` to `3`, whereas
`ceil(LABEL_PADDING / entry_w) = ceil(391/130) = 4`. -/
theorem C5_round_up_is_not_ceiling :
    entry_w 144 24 = .ok (130 / 23) ∧
    ((LABEL_PADDING : ℚ) + ((130 / 23 : ℚ) - 1)) / (130 / 23) = 249 / 65 ∧
    entries_per_label (130 / 23) = .ok 3 ∧
    (LABEL_PADDING : ℚ) / (130 / 23) = 391 / 130 ∧
    ⌈(LABEL_PADDING : ℚ) / (130 / 23)⌉ = 4 := by
  refine ⟨?_, ?_, ?_, ?_, ?_⟩
  · norm_num [entry_w, fdiv, MARGIN_GRAPH_W]
  · norm_num [LABEL_PADDING]
  · norm_num [entries_per_label, fdiv, LABEL_PADDING, f2i]
    rfl
  · norm_num [LABEL_PADDING]
  · rw [Int.ceil_eq_iff]
    norm_num [LABEL_PADDING]

/-- C7, refuted as stated.  On the 144 pixel wide canvas with 24 samples
(`entries_per_label = 3`) the loop body draws nothing at index 1 and draws a tick
at index 2; the render of the 24 hour scenario draws its ticks at the x positions
of the indices 2, 5, ..., 23, not at those of 1, 4, 7, .... -/
theorem C7_no_tick_at_index_one :
    entry_w 144 (persist_get_num_entries scenario_24) = .ok (130 / 23) ∧
    entries_per_label (130 / 23) = .ok 3 ∧
    entry_x (130 / 23) 1 = 12 ∧
    entry_decoration 60 6 3 12 1 = .ok [] ∧
    entry_x (130 / 23) 2 = 18 ∧
    entry_decoration 60 6 3 18 2 =
      .ok [.graphics_draw_line ⟨18, 51⟩ ⟨18, 55⟩] ∧
    (graph_update_proc ⟨144, 60⟩ scenario_24).ops.filter CtxOp.isLine =
      [ .graphics_draw_line ⟨0, 51⟩ ⟨144, 51⟩,
        .graphics_draw_line ⟨0, 0⟩ ⟨0, 51⟩,
        .graphics_draw_line ⟨18, 51⟩ ⟨18, 55⟩,
        .graphics_draw_line ⟨35, 51⟩ ⟨35, 55⟩,
        .graphics_draw_line ⟨52, 51⟩ ⟨52, 55⟩,
        .graphics_draw_line ⟨69, 51⟩ ⟨69, 55⟩,
        .graphics_draw_line ⟨86, 51⟩ ⟨86, 55⟩,
        .graphics_draw_line ⟨103, 51⟩ ⟨103, 55⟩,
        .graphics_draw_line ⟨120, 51⟩ ⟨120, 55⟩,
        .graphics_draw_line ⟨137, 51⟩ ⟨137, 55⟩ ] := by
  exact ⟨entry_w_144_24, entries_per_label_144_24, by decide!, rfl, by decide!, rfl, by decide!⟩

/-- C7, amended.  On the 144 pixel wide canvas with 24 samples
(`entries_per_label = 3`) the loop body draws a tick at index `i < 24` exactly
when `i` is one of 2, 5, 8, ..., 23 (the indices congruent to 2 modulo 3); and a
render whose temperatures are not all equal runs to its end and draws, after the
two axis lines, exactly these eight ticks, in index order, at x = 18, 35, ...,
137. -/
theorem C7_ticks_at_two_modulo_three (h : Int) (d : DataSource)
    (hN : persist_get_num_entries d = 24) :
    entry_w 144 (persist_get_num_entries d) = .ok (130 / 23) ∧
    entries_per_label (130 / 23) = .ok 3 ∧
    (∀ (s : Int) (i : Nat), i < 24 →
      (entry_decoration h s 3 (entry_x (130 / 23) i) i =
          .ok [tick_mark h (entry_x (130 / 23) i)] ↔
        i ∈ [2, 5, 8, 11, 14, 17, 20, 23])) ∧
    ((min_max (persist_get_temp_trend d)).1 < (min_max (persist_get_temp_trend d)).2 →
      (graph_update_proc ⟨144, h⟩ d).fault = none ∧
      (graph_update_proc ⟨144, h⟩ d).ops.filter CtxOp.isLine =
        [ .graphics_draw_line ⟨0, h - BOTTOM_AXIS_H⟩ ⟨144, h - BOTTOM_AXIS_H⟩,
          .graphics_draw_line ⟨0, 0⟩ ⟨0, h - BOTTOM_AXIS_H⟩ ] ++
        ([2, 5, 8, 11, 14, 17, 20, 23] : List Nat).map
          fun (i : Nat) => tick_mark h (entry_x (130 / 23) i)) ∧
    ([2, 5, 8, 11, 14, 17, 20, 23] : List Nat).map (fun (i : Nat) => entry_x (130 / 23) i) =
      [18, 35, 52, 69, 86, 103, 120, 137] := by
  have hew : entry_w 144 (persist_get_num_entries d) = .ok (130 / 23) := by
    rw [hN]
    exact entry_w_144_24
  refine ⟨hew, entries_per_label_144_24, ?_, ?_, by decide!⟩
  · intro s i hi
    rw [entry_decoration_eq i (by decide), is_label_index_three, is_tick_index_three]
    have hmem : i ∈ [2, 5, 8, 11, 14, 17, 20, 23] ↔ i % 3 = 2 := by
      simp only [List.mem_cons, List.mem_singleton, List.not_mem_nil, or_false]
      omega
    rw [hmem]
    by_cases h0 : i % 3 = 0
    · have h2 : ¬ i % 3 = 2 := by omega
      simp [h0, h2, hour_label, tick_mark]
    · by_cases h2 : i % 3 = 2
      · simp [h0, h2]
      · simp [h0, h2]
  · intro hlt
    have hlen : d.samples.length = 24 := by
      have := hN
      simp only [persist_get_num_entries] at this
      exact_mod_cast this
    have hrun := graph_update_proc_run ⟨144, h⟩ d (130 / 23) 3 hew entries_per_label_144_24
      (by decide) (by omega)
    rw [hrun]
    refine ⟨rfl, ?_⟩
    simp only [full_ops_line, decorations_line (by decide : (3 : Int) ≠ 0), hlen]
    rfl

/-- The 24 hour scenario on a canvas of height 60 meets the hypotheses of the
amended C7. -/
theorem C7_ticks_at_two_modulo_three_witness :
    persist_get_num_entries scenario_24 = 24 ∧
    (graph_update_proc ⟨144, 60⟩ scenario_24).fault = none :=
  ⟨by decide,
   ((C7_ticks_at_two_modulo_three 60 scenario_24 (by decide)).2.2.2.1 (by decide)).1⟩

/-- C8.  On the 144 pixel wide canvas with 24 samples the entry width is `130/23`
and `entries_per_label` is 3; the loop body draws an hour label at index
`i < 24` exactly when `i` is one of 0, 3, 6, ..., 21; and a render whose
temperatures are not all equal runs to its end and its text draw calls are
exactly the hour labels of these eight indices, in index order. -/
theorem C8_labels_at_multiples_of_three (h : Int) (d : DataSource)
    (hN : persist_get_num_entries d = 24) :
    entry_w 144 (persist_get_num_entries d) = .ok (130 / 23) ∧
    entries_per_label (130 / 23) = .ok 3 ∧
    (∀ (s : Int) (i : Nat), i < 24 →
      (entry_decoration h s 3 (entry_x (130 / 23) i) i =
          .ok [hour_label h s (entry_x (130 / 23) i) i] ↔
        i ∈ [0, 3, 6, 9, 12, 15, 18, 21])) ∧
    ((min_max (persist_get_temp_trend d)).1 < (min_max (persist_get_temp_trend d)).2 →
      (graph_update_proc ⟨144, h⟩ d).fault = none ∧
      (graph_update_proc ⟨144, h⟩ d).ops.filter CtxOp.isText =
        ([0, 3, 6, 9, 12, 15, 18, 21] : List Nat).map
          fun (i : Nat) => hour_label h (persist_get_start_hour d) (entry_x (130 / 23) i) i) := by
  have hew : entry_w 144 (persist_get_num_entries d) = .ok (130 / 23) := by
    rw [hN]
    exact entry_w_144_24
  refine ⟨hew, entries_per_label_144_24, ?_, ?_⟩
  · intro s i hi
    rw [entry_decoration_eq i (by decide), is_label_index_three, is_tick_index_three]
    have hmem : i ∈ [0, 3, 6, 9, 12, 15, 18, 21] ↔ i % 3 = 0 := by
      simp only [List.mem_cons, List.mem_singleton, List.not_mem_nil, or_false]
      omega
    rw [hmem]
    by_cases h0 : i % 3 = 0
    · simp [h0]
    · by_cases h2 : i % 3 = 2
      · simp [h0, h2, hour_label, tick_mark]
      · simp [h0, h2]
  · intro hlt
    have hlen : d.samples.length = 24 := by
      have := hN
      simp only [persist_get_num_entries] at this
      exact_mod_cast this
    have hrun := graph_update_proc_run ⟨144, h⟩ d (130 / 23) 3 hew entries_per_label_144_24
      (by decide) (by omega)
    rw [hrun]
    refine ⟨rfl, ?_⟩
    simp only [full_ops_text, decorations_text (by decide : (3 : Int) ≠ 0), hlen]
    rfl

/-- The 24 hour scenario on a canvas of height 60: the labels read 6, 9, ..., 3. -/
theorem C8_labels_at_multiples_of_three_witness :
    persist_get_num_entries scenario_24 = 24 ∧
    (graph_update_proc ⟨144, 60⟩ scenario_24).ops.filter CtxOp.isText =
      ([0, 3, 6, 9, 12, 15, 18, 21] : List Nat).map
        fun (i : Nat) => hour_label 60 (persist_get_start_hour scenario_24) (entry_x (130 / 23) i) i :=
  ⟨by decide,
   ((C8_labels_at_multiples_of_three 60 scenario_24 (by decide)).2.2.2 (by decide)).2⟩

/-! ## C9: the closing points of the precipitation polygon -/

/-- The path draw calls of a render that runs to its end: the filled area, the
outline over the first `n` points of the same array, and the temperature line. -/
theorem full_ops_path (w h n : Int) (decos : List CtxOp) (pp pt : List GPoint)
    (hd : decos.filter CtxOp.isPath = []) :
    (axis_ops w h ++ label_color_ops ++ decos ++ path_ops n pp pt).filter CtxOp.isPath =
      [ .gpath_draw_filled pp, .gpath_draw_outline_open (pp.take n.toNat),
        .gpath_draw_outline_open pt ] := by
  simp [axis_ops, label_color_ops, path_ops, List.filter_append, CtxOp.isPath, hd]

theorem ok_or_entry_decoration (h s epl ex : Int) (i : Nat) (he : epl ≠ 0) :
    ok_or [] (entry_decoration h s epl ex i) =
      if is_label_index epl i then [hour_label h s ex i]
      else if is_tick_index epl i then [tick_mark h ex]
      else [] := by
  rw [entry_decoration_eq i he]
  split_ifs <;> rfl

theorem num_entries_toNat (d : DataSource) :
    (persist_get_num_entries d).toNat = d.samples.length := by
  simp [persist_get_num_entries]

/-! ## C11: no precipitation -/

theorem emod_eq_zero_of_lt_two_mul {x k : Int} (h0 : 0 ≤ x) (h1 : x < 2 * k) :
    x % k = 0 ↔ x = 0 ∨ x = k := by
  constructor
  · intro hx
    by_cases hlt : x < k
    · rw [Int.emod_eq_of_lt h0 hlt] at hx
      exact Or.inl hx
    · right
      have h2 : (x - k) % k = x % k := by
        rw [Int.sub_emod, Int.emod_self, sub_zero, Int.emod_emod]
      rw [Int.emod_eq_of_lt (by omega) (by omega)] at h2
      omega
  · rintro (rfl | rfl)
    · simp
    · simp

theorem tick_condition_iff {k : Int} (i : Nat) (hk : 2 ≤ k) :
    ((i : Int) % k ≠ 0 ∧ ((i : Int) + k / 2) % k = 0) ↔ (i : Int) % k = (k + 1) / 2 := by
  have hr0 : 0 ≤ (i : Int) % k := Int.emod_nonneg _ (by omega)
  have hr1 : (i : Int) % k < k := Int.emod_lt_of_pos _ (by omega)
  have e : ((i : Int) + k / 2) % k = ((i : Int) % k + k / 2) % k :=
    (Int.emod_add_emod _ _ _).symm
  rw [e, emod_eq_zero_of_lt_two_mul (by omega) (by omega)]
  omega

/-- C14.  For every `entries_per_label = k >= 1` and every index `i >= 0` the
decoration step is computed without fault and draws at most one decoration: the
hour label exactly when `i mod k = 0`; the tick exactly when `i mod k != 0` and
`(i + floor(k/2)) mod k = 0`, which for `k >= 2` is exactly
`i mod k = ceil(k/2)` and for `k = 1` is never; and nothing in every other case. -/
theorem C14_decoration_rule (h s ex k : Int) (i : Nat) (hk : 1 ≤ k) :
    ∃ ops, entry_decoration h s k ex i = .ok ops ∧ ops.length ≤ 1 ∧
      (ops = [hour_label h s ex i] ↔ (i : Int) % k = 0) ∧
      (ops = [tick_mark h ex] ↔ ((i : Int) % k ≠ 0 ∧ ((i : Int) + k / 2) % k = 0)) ∧
      (2 ≤ k → (ops = [tick_mark h ex] ↔ (i : Int) % k = (k + 1) / 2)) ∧
      (k = 1 → ops ≠ [tick_mark h ex]) ∧
      (ops = [] ↔ ((i : Int) % k ≠ 0 ∧ ((i : Int) + k / 2) % k ≠ 0)) := by
  have hi : (0 : Int) ≤ i := Int.ofNat_nonneg i
  have hk2 : 0 ≤ k / 2 := Int.ediv_nonneg (by omega) (by decide)
  have e1 : Int.tmod i k = (i : Int) % k := Int.tmod_eq_emod hi (by omega)
  have e2 : Int.tdiv k 2 = k / 2 := Int.tdiv_eq_ediv (by omega) (by decide)
  have e3 : Int.tmod (i + k / 2) k = ((i : Int) + k / 2) % k :=
    Int.tmod_eq_emod (by omega) (by omega)
  have hne : k ≠ 0 := by omega
  have hform : entry_decoration h s k ex i =
      if (i : Int) % k = 0 then .ok [hour_label h s ex i]
      else if ((i : Int) + k / 2) % k = 0 then .ok [tick_mark h ex]
      else .ok [] := by
    simp only [entry_decoration, hne, if_false, e1, e2, e3]
  have hlt : hour_label h s ex i ≠ tick_mark h ex := by
    simp [hour_label, tick_mark]
  by_cases c1 : (i : Int) % k = 0
  · refine ⟨[hour_label h s ex i], by rw [hform, if_pos c1], by simp, by simp [c1],
      by simp [c1, hlt], ?_, by simp [hlt], by simp [c1]⟩
    intro hk2'
    have := (tick_condition_iff i hk2').not.mp (by simp [c1])
    simp [hlt, this]
  · by_cases c2 : ((i : Int) + k / 2) % k = 0
    · refine ⟨[tick_mark h ex], by rw [hform, if_neg c1, if_pos c2], by simp,
        by simp [c1, Ne.symm hlt], by simp [c1, c2], ?_, ?_, by simp [c2]⟩
      · intro hk2'
        have := (tick_condition_iff i hk2').mp ⟨c1, c2⟩
        simp [this]
      · intro h1
        subst h1
        omega
    · refine ⟨[], by rw [hform, if_neg c1, if_neg c2], by simp, by simp [c1], by simp [c2],
        ?_, by simp, by simp [c1, c2]⟩
      intro hk2'
      have := (tick_condition_iff i hk2').not.mp (by simp [c2])
      simp [this]

/-- With `entries_per_label = 4`: a label at index 8, a tick at index 6, nothing
at index 5. -/
theorem C14_decoration_rule_witness :
    (1 : Int) ≤ 4 ∧
    entry_decoration 60 6 4 40 ((8 : Nat) : Int) = .ok [hour_label 60 6 40 ((8 : Nat) : Int)] ∧
    entry_decoration 60 6 4 30 6 = .ok [tick_mark 60 30] ∧
    entry_decoration 60 6 4 25 5 = .ok [] := by
  obtain ⟨ops, h1, _, h2, _⟩ := C14_decoration_rule 60 6 40 4 8 (by decide)
  refine ⟨by decide, ?_, rfl, rfl⟩
  rw [h1, h2.mpr (by decide)]

/-! ## C17: the round-up idiom -/

theorem entries_per_label_floor {e : ℚ} (he : 0 < e) :
    entries_per_label e = .ok ⌊((LABEL_PADDING : ℚ) + (e - 1)) / e⌋ := by
  have h1 : (1 : ℚ) ≤ ((LABEL_PADDING : ℚ) + (e - 1)) / e := by
    rw [le_div_iff₀ he]
    have : (LABEL_PADDING : ℚ) = 17 := by simp [LABEL_PADDING]
    rw [this]
    linarith
  rw [entries_per_label_ok (ne_of_gt he), f2i_of_nonneg (le_trans zero_le_one h1)]

theorem entries_per_label_le_spec {e : ℚ} (he : 0 < e) :
    ⌊((LABEL_PADDING : ℚ) + (e - 1)) / e⌋ ≤ entriesPerLabel_spec e := by
  have hP : (LABEL_PADDING : ℚ) = 17 := by simp [LABEL_PADDING]
  have h1 : ((⌊((LABEL_PADDING : ℚ) + (e - 1)) / e⌋ : Int) : ℚ) ≤
      ((LABEL_PADDING : ℚ) + (e - 1)) / e := Int.floor_le _
  have h2 : ((LABEL_PADDING : ℚ) + (e - 1)) / e < (LABEL_PADDING : ℚ) / e + 1 := by
    rw [div_lt_iff₀ he, add_mul, div_mul_cancel₀ _ (ne_of_gt he), hP]
    linarith
  have h3 : (LABEL_PADDING : ℚ) / e ≤ ((entriesPerLabel_spec e : Int) : ℚ) := Int.le_ceil _
  have h4 : ((⌊((LABEL_PADDING : ℚ) + (e - 1)) / e⌋ : Int) : ℚ) <
      ((entriesPerLabel_spec e + 1 : Int) : ℚ) := by
    push_cast
    linarith
  have h5 : ⌊((LABEL_PADDING : ℚ) + (e - 1)) / e⌋ < entriesPerLabel_spec e + 1 := by
    exact_mod_cast h4
  omega

theorem entries_per_label_eq_spec_of_int (n : Int) (hn : 1 ≤ n) :
    ⌊((LABEL_PADDING : ℚ) + ((n : ℚ) - 1)) / (n : ℚ)⌋ = entriesPerLabel_spec (n : ℚ) := by
  have hP : (LABEL_PADDING : ℚ) = 17 := by simp [LABEL_PADDING]
  have hpos : (0 : ℚ) < (n : ℚ) := by
    have : 0 < n := by omega
    exact_mod_cast this
  symm
  unfold entriesPerLabel_spec
  rw [Int.ceil_eq_iff]
  have h1 : ((⌊((LABEL_PADDING : ℚ) + ((n : ℚ) - 1)) / (n : ℚ)⌋ : Int) : ℚ) ≤
      ((LABEL_PADDING : ℚ) + ((n : ℚ) - 1)) / (n : ℚ) := Int.floor_le _
  have h2 : ((LABEL_PADDING : ℚ) + ((n : ℚ) - 1)) / (n : ℚ) <
      ((⌊((LABEL_PADDING : ℚ) + ((n : ℚ) - 1)) / (n : ℚ)⌋ : Int) : ℚ) + 1 :=
    Int.lt_floor_add_one _
  generalize ⌊((LABEL_PADDING : ℚ) + ((n : ℚ) - 1)) / (n : ℚ)⌋ = k at h1 h2 ⊢
  rw [le_div_iff₀ hpos, hP] at h1
  rw [div_lt_iff₀ hpos, hP] at h2
  have g1 : k * n ≤ 16 + n := by
    have : ((k * n : Int) : ℚ) ≤ ((16 + n : Int) : ℚ) := by
      push_cast
      linarith
    exact_mod_cast this
  have g2 : 16 + n < (k + 1) * n := by
    have : ((16 + n : Int) : ℚ) < (((k + 1) * n : Int) : ℚ) := by
      push_cast
      linarith
    exact_mod_cast this
  have g3 : 17 ≤ k * n := by
    have : (k + 1) * n = k * n + n := by ring
    omega
  have g4 : (k - 1) * n ≤ 16 := by
    have : (k - 1) * n = k * n - n := by ring
    omega
  constructor
  · rw [hP, lt_div_iff₀ hpos]
    have : (((k - 1) * n : Int) : ℚ) ≤ ((16 : Int) : ℚ) := by exact_mod_cast g4
    push_cast at this
    linarith
  · rw [hP, div_le_iff₀ hpos]
    have : ((17 : Int) : ℚ) ≤ ((k * n : Int) : ℚ) := by exact_mod_cast g3
    push_cast at this
    linarith

/-- C17.  For every entry width `e > 0` the add-(divisor-1) round-up of line 47,
`trunc((LABEL_PADDING + (e - 1)) / e)`, is computed without fault and never
exceeds `ceil(LABEL_PADDING / e)`; and when `e` is a whole number (as it is
whenever `N - 1` divides `w - 2 * MARGIN_GRAPH_W` with a quotient `>= 1`) the two
are equal. -/
theorem C17_round_up_for_whole_entry_width (e : ℚ) (he : 0 < e) :
    ∃ k : Int, entries_per_label e = .ok k ∧ k ≤ entriesPerLabel_spec e ∧
      (∀ n : Int, e = (n : ℚ) → k = entriesPerLabel_spec e) ∧
      (∀ w N n : Int, 2 ≤ N → w - 2 * MARGIN_GRAPH_W = n * (N - 1) → e = (n : ℚ) →
        entry_w w N = .ok e) := by
  refine ⟨_, entries_per_label_floor he, entries_per_label_le_spec he, ?_, ?_⟩
  · intro n hn
    subst hn
    have hn1 : 1 ≤ n := by
      have : (0 : ℚ) < (n : ℚ) := he
      have : 0 < n := by exact_mod_cast this
      omega
    exact entries_per_label_eq_spec_of_int n hn1
  · intro w N n hN hdiv hn
    have hn1 : N ≠ 1 := by omega
    have hd : ((N - 1 : Int) : ℚ) ≠ 0 := by
      have : N - 1 ≠ 0 := by omega
      exact_mod_cast this
    rw [entry_w_ok hn1, hdiv, hn]
    congr 1
    push_cast
    push_cast at hd
    field_simp

/-- An entry width of 5 pixels (`w = 129`, `N = 24`): the code gives
`trunc(21/5) = 4`, which is `ceil(17/5)`. -/
theorem C17_round_up_for_whole_entry_width_witness :
    (0 : ℚ) < 5 ∧ entries_per_label 5 = .ok 4 ∧ entriesPerLabel_spec 5 = 4 ∧
    entry_w 129 24 = .ok 5 := by
  obtain ⟨k, h1, _, h3, h4⟩ := C17_round_up_for_whole_entry_width 5 (by norm_num)
  have hs : entriesPerLabel_spec 5 = 4 := by
    unfold entriesPerLabel_spec
    rw [Int.ceil_eq_iff]
    norm_num [LABEL_PADDING]
  have hk : k = 4 := by
    rw [h3 5 (by norm_num), hs]
  subst hk
  exact ⟨by norm_num, h1, hs, h4 129 24 5 (by decide) (by decide) (by norm_num)⟩

/-! ## C18: the label buffer -/

/-- C18.  For every start hour `s` in `[0, 23]` and every index `i >= 0` the label
value `(s + i) % 24` lies in `[0, 23]`; its decimal text has at most 2
characters, so with the terminator it needs at most 3 of the 4 bytes of `buf`,
and `snprintf` leaves the whole text in `buf`. -/
theorem C18_label_fits_buffer (s : Int) (i : Nat) (hs0 : 0 ≤ s) (hs1 : s ≤ 23) :
    0 ≤ Int.tmod (s + i) 24 ∧ Int.tmod (s + i) 24 ≤ 23 ∧
    Int.tmod (s + i) 24 = (s + i) % 24 ∧
    (toString (Int.tmod (s + i) 24)).length ≤ 2 ∧
    (toString (Int.tmod (s + i) 24)).length + 1 ≤ 4 ∧
    snprintf_d 4 (Int.tmod (s + i) 24) = toString (Int.tmod (s + i) 24) := by
  have h0 : (0 : Int) ≤ s + i := by omega
  have e : Int.tmod (s + i) 24 = (s + i) % 24 := Int.tmod_eq_emod h0 (by decide)
  have b0 : 0 ≤ (s + i) % 24 := Int.emod_nonneg _ (by decide)
  have b1 : (s + i) % 24 < 24 := Int.emod_lt_of_pos _ (by decide)
  rw [e]
  have hlen : ∀ v : Int, 0 ≤ v → v < 24 → (toString v).length ≤ 2 := by
    intro v v0 v1
    interval_cases v <;> decide
  have hl := hlen _ b0 b1
  exact ⟨b0, by omega, rfl, hl, by omega, snprintf_d_small _ b0 b1⟩

/-- Start hour 23 and index 13: the label value is 12 and the buffer holds "12". -/
theorem C18_label_fits_buffer_witness :
    (0 : Int) ≤ 23 ∧ (23 : Int) ≤ 23 ∧
    snprintf_d 4 (Int.tmod (23 + ((13 : Nat) : Int)) 24) = "12" := by
  refine ⟨by decide, by decide, ?_⟩
  rw [(C18_label_fits_buffer 23 13 (by decide) (by decide)).2.2.2.2.2]
  decide

/-! # The second embedding

The lemmas and the claims that are stated over the arithmetic of the source as
it is rounded: C1, C12, C13, C15 and C16.
-/

namespace Ieee

/-! ## Rounding -/

theorem floor_le_round_half_even (t : ℚ) : ⌊t⌋ ≤ round_half_even t := by
  unfold round_half_even
  split_ifs <;> omega

theorem round_half_even_le_floor_add_one (t : ℚ) : round_half_even t ≤ ⌊t⌋ + 1 := by
  unfold round_half_even
  split_ifs <;> omega

theorem round_half_even_intCast (n : Int) : round_half_even (n : ℚ) = n := by
  unfold round_half_even
  simp

theorem round_half_even_sub_le (t : ℚ) : (round_half_even t : ℚ) - t ≤ 1 / 2 := by
  have h1 : (⌊t⌋ : ℚ) ≤ t := Int.floor_le t
  unfold round_half_even
  split_ifs with a b c
  · linarith
  · push_cast
    linarith
  · linarith
  · push_cast
    linarith

theorem sub_round_half_even_le (t : ℚ) : t - (round_half_even t : ℚ) ≤ 1 / 2 := by
  have h2 : t < (⌊t⌋ : ℚ) + 1 := Int.lt_floor_add_one t
  unfold round_half_even
  split_ifs with a b c
  · linarith
  · push_cast
    linarith
  · linarith
  · push_cast
    linarith

theorem round_half_even_mono {s t : ℚ} (hst : s ≤ t) :
    round_half_even s ≤ round_half_even t := by
  have hf : ⌊s⌋ ≤ ⌊t⌋ := Int.floor_mono hst
  rcases lt_or_eq_of_le hf with hlt | heq
  · have h1 := round_half_even_le_floor_add_one s
    have h2 := floor_le_round_half_even t
    omega
  · have hq : (⌊s⌋ : ℚ) = (⌊t⌋ : ℚ) := by exact_mod_cast heq
    unfold round_half_even
    split_ifs <;> first | omega | (exfalso; linarith)

theorem ulp_pos (prec : Nat) (y : ℚ) : 0 < ulp prec y := by
  unfold ulp
  positivity

theorem ulp_succ (m : Nat) (y : ℚ) : ulp (m + 1) y = (2 : ℚ) ^ (Int.log 2 y - (m : Int)) := by
  unfold ulp
  congr 1
  push_cast
  ring

theorem two_pow_mul_ulp (m : Nat) (y : ℚ) :
    (2 : ℚ) ^ m * ulp (m + 1) y = (2 : ℚ) ^ (Int.log 2 y) := by
  rw [ulp_succ, ← zpow_natCast, ← zpow_add₀ (two_ne_zero)]
  congr 1
  ring

theorem two_pow_succ_mul_ulp (m : Nat) (y : ℚ) :
    (2 : ℚ) ^ (m + 1) * ulp (m + 1) y = (2 : ℚ) ^ (Int.log 2 y + 1) := by
  rw [ulp_succ, ← zpow_natCast, ← zpow_add₀ (two_ne_zero)]
  congr 1
  push_cast
  ring

theorem two_pow_le_scaled (m : Nat) {y : ℚ} (hy : 0 < y) :
    (2 : ℚ) ^ m ≤ y / ulp (m + 1) y := by
  rw [le_div_iff₀ (ulp_pos _ _), two_pow_mul_ulp]
  exact Int.zpow_log_le_self (by decide) hy

theorem scaled_lt_two_pow (m : Nat) (y : ℚ) :
    y / ulp (m + 1) y < (2 : ℚ) ^ (m + 1) := by
  rw [div_lt_iff₀ (ulp_pos _ _), two_pow_succ_mul_ulp]
  exact Int.lt_zpow_succ_log_self (by decide) y

theorem two_pow_le_round_half_even (m : Nat) {y : ℚ} (hy : 0 < y) :
    (2 : Int) ^ m ≤ round_half_even (y / ulp (m + 1) y) := by
  have h := round_half_even_mono (two_pow_le_scaled m hy)
  have e : ((2 : ℚ) ^ m) = (((2 : Int) ^ m : Int) : ℚ) := by push_cast; rfl
  rw [e, round_half_even_intCast] at h
  exact h

theorem round_half_even_le_two_pow (m : Nat) (y : ℚ) :
    round_half_even (y / ulp (m + 1) y) ≤ (2 : Int) ^ (m + 1) := by
  have h := round_half_even_mono (le_of_lt (scaled_lt_two_pow m y))
  have e : ((2 : ℚ) ^ (m + 1)) = (((2 : Int) ^ (m + 1) : Int) : ℚ) := by push_cast; rfl
  rw [e, round_half_even_intCast] at h
  exact h

/-- A rounded positive value stays in the binade of its argument, ends included. -/
theorem two_zpow_le_round_pos (m : Nat) {y : ℚ} (hy : 0 < y) :
    (2 : ℚ) ^ (Int.log 2 y) ≤ round_pos (m + 1) y := by
  unfold round_pos
  rw [← two_pow_mul_ulp m y]
  apply mul_le_mul_of_nonneg_right _ (le_of_lt (ulp_pos _ _))
  have := two_pow_le_round_half_even m hy
  exact_mod_cast this

theorem round_pos_le_two_zpow (m : Nat) (y : ℚ) :
    round_pos (m + 1) y ≤ (2 : ℚ) ^ (Int.log 2 y + 1) := by
  unfold round_pos
  rw [← two_pow_succ_mul_ulp m y]
  apply mul_le_mul_of_nonneg_right _ (le_of_lt (ulp_pos _ _))
  have := round_half_even_le_two_pow m y
  exact_mod_cast this

theorem round_pos_pos (m : Nat) {y : ℚ} (hy : 0 < y) : 0 < round_pos (m + 1) y :=
  lt_of_lt_of_le (by positivity) (two_zpow_le_round_pos m hy)

theorem round_pos_mono (m : Nat) {x y : ℚ} (hx : 0 < x) (hxy : x ≤ y) :
    round_pos (m + 1) x ≤ round_pos (m + 1) y := by
  have hy : 0 < y := lt_of_lt_of_le hx hxy
  have hlog : Int.log 2 x ≤ Int.log 2 y := Int.log_mono_right hx hxy
  rcases lt_or_eq_of_le hlog with hlt | heq
  · have h1 := round_pos_le_two_zpow m x
    have h2 := two_zpow_le_round_pos m hy
    have h3 : (2 : ℚ) ^ (Int.log 2 x + 1) ≤ (2 : ℚ) ^ (Int.log 2 y) :=
      zpow_le_zpow_right₀ (by norm_num) (by omega)
    linarith
  · have hu : ulp (m + 1) x = ulp (m + 1) y := by
      unfold ulp
      rw [heq]
    unfold round_pos
    rw [hu]
    apply mul_le_mul_of_nonneg_right _ (le_of_lt (ulp_pos _ _))
    have : x / ulp (m + 1) y ≤ y / ulp (m + 1) y :=
      div_le_div_of_nonneg_right hxy (le_of_lt (ulp_pos _ _))
    have := round_half_even_mono this
    exact_mod_cast this

/-- The rounding error of a positive value is at most half a unit in the last
place, hence at most `y / 2 ^ (m + 1)`. -/
theorem round_pos_error (m : Nat) {y : ℚ} (hy : 0 < y) :
    round_pos (m + 1) y - y ≤ y / (2 : ℚ) ^ (m + 1) ∧
      y - round_pos (m + 1) y ≤ y / (2 : ℚ) ^ (m + 1) := by
  have hu := ulp_pos (m + 1) y
  have hs := two_pow_le_scaled m hy
  have hle : ulp (m + 1) y / 2 ≤ y / (2 : ℚ) ^ (m + 1) := by
    rw [le_div_iff₀ (ulp_pos _ _)] at hs
    rw [le_div_iff₀ (by positivity)]
    have e2 : ulp (m + 1) y / 2 * (2 : ℚ) ^ (m + 1) = (2 : ℚ) ^ m * ulp (m + 1) y := by
      rw [pow_succ]
      ring
    rw [e2]
    exact hs
  have e : y = y / ulp (m + 1) y * ulp (m + 1) y := by
    field_simp
  have h1 := round_half_even_sub_le (y / ulp (m + 1) y)
  have h2 := sub_round_half_even_le (y / ulp (m + 1) y)
  unfold round_pos
  constructor
  · calc (round_half_even (y / ulp (m + 1) y) : ℚ) * ulp (m + 1) y - y
        = ((round_half_even (y / ulp (m + 1) y) : ℚ) - y / ulp (m + 1) y) * ulp (m + 1) y := by
          rw [sub_mul, ← e]
      _ ≤ 1 / 2 * ulp (m + 1) y := mul_le_mul_of_nonneg_right h1 (le_of_lt hu)
      _ ≤ y / (2 : ℚ) ^ (m + 1) := by linarith
  · calc y - (round_half_even (y / ulp (m + 1) y) : ℚ) * ulp (m + 1) y
        = (y / ulp (m + 1) y - (round_half_even (y / ulp (m + 1) y) : ℚ)) * ulp (m + 1) y := by
          rw [sub_mul, ← e]
      _ ≤ 1 / 2 * ulp (m + 1) y := mul_le_mul_of_nonneg_right h2 (le_of_lt hu)
      _ ≤ y / (2 : ℚ) ^ (m + 1) := by linarith

theorem round_pos_of_scaled_int (prec : Nat) (y : ℚ) (z : Int)
    (hz : y / ulp prec y = (z : ℚ)) : round_pos prec y = y := by
  unfold round_pos
  rw [hz, round_half_even_intCast, ← hz]
  have := ulp_pos prec y
  field_simp

theorem round_pos_intCast (m : Nat) (n : Int) (h0 : 0 < n) (h1 : n < 2 ^ (m + 1)) :
    round_pos (m + 1) (n : ℚ) = n := by
  have hpos : (0 : ℚ) < (n : ℚ) := by exact_mod_cast h0
  have hlt : (n : ℚ) < ((2 : ℕ) : ℚ) ^ ((m + 1 : ℕ) : ℤ) := by
    rw [zpow_natCast]
    exact_mod_cast h1
  have hlog : Int.log 2 (n : ℚ) < ((m + 1 : ℕ) : ℤ) :=
    (Int.lt_zpow_iff_log_lt (by decide) hpos).mp hlt
  push_cast at hlog
  obtain ⟨k, hk⟩ := Int.eq_ofNat_of_zero_le (show 0 ≤ (m : ℤ) - Int.log 2 (n : ℚ) by omega)
  apply round_pos_of_scaled_int (m + 1) (n : ℚ) (n * 2 ^ k)
  rw [ulp_succ]
  have e : Int.log 2 (n : ℚ) - (m : ℤ) = -(k : ℤ) := by omega
  rw [e, zpow_neg, zpow_natCast, div_inv_eq_mul]
  push_cast
  ring

theorem round_to_zero (prec : Nat) : round_to prec 0 = 0 := by
  simp [round_to]

theorem round_to_of_pos (prec : Nat) {y : ℚ} (hy : 0 < y) :
    round_to prec y = round_pos prec y := by
  simp [round_to, ne_of_gt hy, hy]

theorem round_to_of_neg (prec : Nat) {y : ℚ} (hy : y < 0) :
    round_to prec y = -round_pos prec (-y) := by
  simp [round_to, ne_of_lt hy, not_lt.mpr (le_of_lt hy)]

theorem round_to_nonneg (m : Nat) {y : ℚ} (hy : 0 ≤ y) : 0 ≤ round_to (m + 1) y := by
  rcases eq_or_lt_of_le hy with h | h
  · rw [← h, round_to_zero]
  · rw [round_to_of_pos _ h]
    exact le_of_lt (round_pos_pos m h)

theorem round_to_pos (m : Nat) {y : ℚ} (hy : 0 < y) : 0 < round_to (m + 1) y := by
  rw [round_to_of_pos _ hy]
  exact round_pos_pos m hy

theorem round_to_nonpos (m : Nat) {y : ℚ} (hy : y ≤ 0) : round_to (m + 1) y ≤ 0 := by
  rcases eq_or_lt_of_le hy with h | h
  · rw [h, round_to_zero]
  · rw [round_to_of_neg _ h]
    have := round_pos_pos m (show 0 < -y by linarith)
    linarith

/-- Rounding is monotone. -/
theorem round_to_mono (m : Nat) {x y : ℚ} (hxy : x ≤ y) :
    round_to (m + 1) x ≤ round_to (m + 1) y := by
  rcases lt_trichotomy x 0 with hx | hx | hx
  · rcases lt_or_le y 0 with hy | hy
    · rw [round_to_of_neg _ hx, round_to_of_neg _ hy]
      have := round_pos_mono m (show 0 < -y by linarith) (show -y ≤ -x by linarith)
      linarith
    · exact le_trans (round_to_nonpos m (le_of_lt hx)) (round_to_nonneg m hy)
  · rw [hx, round_to_zero]
    exact round_to_nonneg m (by linarith)
  · rw [round_to_of_pos _ hx, round_to_of_pos _ (lt_of_lt_of_le hx hxy)]
    exact round_pos_mono m hx hxy

/-- An integer of fewer than `m + 1` bits is not changed by rounding. -/
theorem round_to_intCast (m : Nat) (n : Int) (h0 : -(2 ^ (m + 1)) < n) (h1 : n < 2 ^ (m + 1)) :
    round_to (m + 1) (n : ℚ) = n := by
  rcases lt_trichotomy n 0 with hn | hn | hn
  · have hq : (n : ℚ) < 0 := by exact_mod_cast hn
    rw [round_to_of_neg _ hq]
    have := round_pos_intCast m (-n) (by omega) (by omega)
    push_cast at this
    rw [this]
    ring
  · rw [hn]
    simp [round_to_zero]
  · have hq : (0 : ℚ) < (n : ℚ) := by exact_mod_cast hn
    rw [round_to_of_pos _ hq]
    exact round_pos_intCast m n hn h1

/-- The rounding error of a value `y >= 0` is at most `y / 2 ^ (m + 1)`. -/
theorem round_to_error (m : Nat) {y : ℚ} (hy : 0 ≤ y) :
    round_to (m + 1) y - y ≤ y / (2 : ℚ) ^ (m + 1) ∧
      y - round_to (m + 1) y ≤ y / (2 : ℚ) ^ (m + 1) := by
  rcases eq_or_lt_of_le hy with h | h
  · rw [← h, round_to_zero]
    simp
  · rw [round_to_of_pos _ h]
    exact round_pos_error m h

theorem binary32_mono {x y : ℚ} (hxy : x ≤ y) : binary32 x ≤ binary32 y :=
  round_to_mono 23 hxy

theorem binary64_mono {x y : ℚ} (hxy : x ≤ y) : binary64 x ≤ binary64 y :=
  round_to_mono 52 hxy

theorem binary32_nonneg {y : ℚ} (hy : 0 ≤ y) : 0 ≤ binary32 y := round_to_nonneg 23 hy

theorem binary64_nonneg {y : ℚ} (hy : 0 ≤ y) : 0 ≤ binary64 y := round_to_nonneg 52 hy

theorem binary32_pos {y : ℚ} (hy : 0 < y) : 0 < binary32 y := round_to_pos 23 hy

theorem binary32_zero : binary32 0 = 0 := round_to_zero 24

theorem binary64_zero : binary64 0 = 0 := round_to_zero 53

theorem i2f_exact (n : Int) (h0 : -16777216 < n) (h1 : n < 16777216) : i2f n = n :=
  round_to_intCast 23 n (by norm_num; omega) (by norm_num; omega)

theorem i2d_exact (n : Int) (h0 : -9007199254740992 < n) (h1 : n < 9007199254740992) :
    i2d n = n :=
  round_to_intCast 52 n (by norm_num; omega) (by norm_num; omega)

theorem i2f_mono {a b : Int} (hab : a ≤ b) : i2f a ≤ i2f b :=
  binary32_mono (by exact_mod_cast hab)

/-- The relative error of a `float` rounding is at most `2 ^ (-24)`. -/
theorem binary32_error {y : ℚ} (hy : 0 ≤ y) :
    binary32 y ≤ y + y / 16777216 ∧ y - y / 16777216 ≤ binary32 y := by
  have h := round_to_error 23 hy
  have e : (2 : ℚ) ^ (23 + 1) = 16777216 := by norm_num
  rw [e] at h
  unfold binary32
  constructor <;> linarith [h.1, h.2]

/-! ## Truncation and the precipitation fraction -/

theorem f2i_mono_nonneg {a b : ℚ} (ha : 0 ≤ a) (hab : a ≤ b) : f2i a ≤ f2i b := by
  rw [f2i_of_nonneg ha, f2i_of_nonneg (le_trans ha hab)]
  exact Int.floor_mono hab

theorem f2i_nonneg {a : ℚ} (ha : 0 ≤ a) : 0 ≤ f2i a := by
  rw [f2i_of_nonneg ha]
  exact Int.floor_nonneg.mpr ha

theorem binary64_one : binary64 1 = 1 := by
  have := i2d_exact 1 (by decide) (by decide)
  simpa [i2d] using this

theorem binary32_one : binary32 1 = 1 := by
  have := i2f_exact 1 (by decide) (by decide)
  simpa [i2f] using this

/-- The `double` quotient `(float) precip / 100.0` of line 53. -/
theorem precip_fraction_bounds (p : Nat) (hp : p ≤ 100) :
    0 ≤ binary64 (i2f (p : Int) / 100) ∧ binary64 (i2f (p : Int) / 100) ≤ 1 := by
  have e : i2f (p : Int) = ((p : Int) : ℚ) := i2f_exact _ (by omega) (by omega)
  have h0 : (0 : ℚ) ≤ ((p : Int) : ℚ) / 100 := by positivity
  have h1 : ((p : Int) : ℚ) / 100 ≤ 1 := by
    have : ((p : Int) : ℚ) ≤ 100 := by exact_mod_cast hp
    rw [div_le_one (by norm_num)]
    exact this
  rw [e]
  refine ⟨binary64_nonneg h0, ?_⟩
  have := binary64_mono h1
  rw [binary64_one] at this
  exact this

theorem precip_fraction_mono (p q : Nat) (hpq : p ≤ q) (hq : q ≤ 100) :
    binary64 (i2f (p : Int) / 100) ≤ binary64 (i2f (q : Int) / 100) := by
  have e1 : i2f (p : Int) = ((p : Int) : ℚ) := i2f_exact _ (by omega) (by omega)
  have e2 : i2f (q : Int) = ((q : Int) : ℚ) := i2f_exact _ (by omega) (by omega)
  rw [e1, e2]
  apply binary64_mono
  have : ((p : Int) : ℚ) ≤ ((q : Int) : ℚ) := by exact_mod_cast hpq
  linarith

/-! ## The entry width and the x-coordinates in single precision -/

theorem binary32_intCast (n : Int) (h0 : -16777216 < n) (h1 : n < 16777216) :
    binary32 (n : ℚ) = n := i2f_exact n h0 h1

theorem one_le_i2f {n : Int} (hn : 1 ≤ n) : 1 ≤ i2f n := by
  have := i2f_mono hn
  have e : i2f 1 = 1 := by
    have := i2f_exact 1 (by decide) (by decide)
    simpa using this
  rw [e] at this
  exact this

theorem entry_w_some (w N : Int) (hN : 2 ≤ N) :
    entry_w w N = some (binary32 (i2f (w - 2 * MARGIN_GRAPH_W) / i2f (N - 1))) := by
  have : N - 1 ≠ 0 := by omega
  simp [entry_w, this]

/-- The entry width of at least two samples on a canvas at least as wide as both
side margins is not negative, and at most `w - 2 * MARGIN_GRAPH_W` when that is
below `2 ^ 24`. -/
theorem entry_w_bounds (w N : Int) (hN : 2 ≤ N) (hw : 2 * MARGIN_GRAPH_W ≤ w)
    (hmax : w - 2 * MARGIN_GRAPH_W < 16777216) :
    0 ≤ binary32 (i2f (w - 2 * MARGIN_GRAPH_W) / i2f (N - 1)) ∧
    binary32 (i2f (w - 2 * MARGIN_GRAPH_W) / i2f (N - 1)) ≤
      ((w - 2 * MARGIN_GRAPH_W : Int) : ℚ) := by
  have ea : i2f (w - 2 * MARGIN_GRAPH_W) = ((w - 2 * MARGIN_GRAPH_W : Int) : ℚ) :=
    i2f_exact _ (by omega) hmax
  have ha : (0 : ℚ) ≤ ((w - 2 * MARGIN_GRAPH_W : Int) : ℚ) := by
    have : 0 ≤ w - 2 * MARGIN_GRAPH_W := by omega
    exact_mod_cast this
  have hb : 1 ≤ i2f (N - 1) := one_le_i2f (by omega)
  rw [ea]
  refine ⟨binary32_nonneg (div_nonneg ha (by linarith)), ?_⟩
  have h1 : ((w - 2 * MARGIN_GRAPH_W : Int) : ℚ) / i2f (N - 1) ≤
      ((w - 2 * MARGIN_GRAPH_W : Int) : ℚ) := div_le_self ha hb
  have h2 := binary32_mono h1
  rw [binary32_intCast _ (by omega) hmax] at h2
  exact h2

theorem ieee_entry_w_pos (w N : Int) (hN : 2 ≤ N) (hw : 2 * MARGIN_GRAPH_W < w) :
    0 < binary32 (i2f (w - 2 * MARGIN_GRAPH_W) / i2f (N - 1)) := by
  have ha : 0 < i2f (w - 2 * MARGIN_GRAPH_W) := by
    have h1 : (1 : Int) ≤ w - 2 * MARGIN_GRAPH_W := by omega
    have := one_le_i2f h1
    linarith
  have hb : 1 ≤ i2f (N - 1) := one_le_i2f (by omega)
  exact binary32_pos (div_pos ha (by linarith))

/-- Line 47 in single precision: for an entry width in `(0, 2 ^ 24)` the quotient
is at least 1, and so is `entries_per_label`. -/
theorem ieee_entries_per_label_pos (u : Undef) (ew : ℚ) (h0 : 0 < ew) (h1 : ew ≤ 16777216) :
    1 ≤ entries_per_label u (some ew) := by
  have e1 : i2f 1 = 1 := by
    have := i2f_exact 1 (by decide) (by decide)
    simpa using this
  have e17 : i2f LABEL_PADDING = 17 := by
    have := i2f_exact 17 (by decide) (by decide)
    simpa [LABEL_PADDING] using this
  -- x1 = binary32 (ew - 1) lies in [ew - 2, ew]
  have x1 : ew - 2 ≤ binary32 (ew - 1) ∧ binary32 (ew - 1) ≤ ew := by
    rcases le_or_lt 1 ew with hge | hlt
    · have hnn : (0 : ℚ) ≤ ew - 1 := by linarith
      obtain ⟨a, b⟩ := binary32_error hnn
      have hsmall : (ew - 1) / 16777216 ≤ 1 := by
        rw [div_le_one (by norm_num)]
        linarith
      constructor <;> linarith
    · have hm1 : binary32 (((-1 : Int) : ℚ)) = (((-1 : Int)) : ℚ) :=
        binary32_intCast (-1) (by decide) (by decide)
      have l1 : binary32 (((-1 : Int) : ℚ)) ≤ binary32 (ew - 1) :=
        binary32_mono (by push_cast; linarith)
      have l2 : binary32 (ew - 1) ≤ binary32 0 := binary32_mono (by linarith)
      rw [hm1] at l1
      rw [binary32_zero] at l2
      push_cast at l1
      constructor <;> linarith
  -- x2 = binary32 (17 + x1) is at least ew
  have s0 : (0 : ℚ) ≤ 17 + binary32 (ew - 1) := by linarith [x1.1]
  have x2 : ew ≤ binary32 (17 + binary32 (ew - 1)) := by
    obtain ⟨_, b⟩ := binary32_error s0
    have hsmall : (17 + binary32 (ew - 1)) / 16777216 ≤ 2 := by
      rw [div_le_iff₀ (by norm_num)]
      linarith [x1.2]
    linarith [x1.1]
  have q1 : 1 ≤ binary32 (17 + binary32 (ew - 1)) / ew := by
    rw [le_div_iff₀ h0]
    linarith
  have q2 : 1 ≤ binary32 (binary32 (17 + binary32 (ew - 1)) / ew) := by
    have := binary32_mono q1
    rw [binary32_one] at this
    exact this
  have hne : ew ≠ 0 := ne_of_gt h0
  simp only [entries_per_label, hne, if_false, e1, e17]
  rw [f2i_of_nonneg (by linarith)]
  exact Int.le_floor.mpr (by exact_mod_cast q2)

/-- For at least two samples on a canvas wider than both side margins (and not
wider than `2 ^ 24` pixels) `entries_per_label` is at least 1. -/
theorem entries_per_label_ge_one (u : Undef) (w N : Int) (hN : 2 ≤ N)
    (hw : 2 * MARGIN_GRAPH_W < w) (hmax : w ≤ 16777216) :
    1 ≤ entries_per_label u (entry_w w N) := by
  rw [entry_w_some w N hN]
  have hb := entry_w_bounds w N hN (by omega) (by simp only [MARGIN_GRAPH_W]; omega)
  have hp := ieee_entry_w_pos w N hN hw
  apply ieee_entries_per_label_pos u _ hp
  have : ((w - 2 * MARGIN_GRAPH_W : Int) : ℚ) ≤ 16777216 := by
    have : w - 2 * MARGIN_GRAPH_W ≤ 16777216 := by simp only [MARGIN_GRAPH_W]; omega
    exact_mod_cast this
  linarith [hb.2]

theorem i2f_margin : i2f MARGIN_GRAPH_W = 7 := by
  have := i2f_exact 7 (by decide) (by decide)
  simpa [MARGIN_GRAPH_W] using this

theorem i2f_nonneg {n : Int} (hn : 0 ≤ n) : 0 ≤ i2f n :=
  binary32_nonneg (by exact_mod_cast hn)

/-- With an entry width that is not negative, `entry_x` does not decrease when the
index increases. -/
theorem entry_x_mono (u : Undef) {ew : ℚ} (he : 0 ≤ ew) {i j : Int} (hi : 0 ≤ i)
    (hij : i ≤ j) : entry_x u (some ew) i ≤ entry_x u (some ew) j := by
  have h1 : i2f i * ew ≤ i2f j * ew := mul_le_mul_of_nonneg_right (i2f_mono hij) he
  have h2 := binary32_mono h1
  have h0 : 0 ≤ binary32 (i2f i * ew) := binary32_nonneg (mul_nonneg (i2f_nonneg hi) he)
  have h3 : i2f MARGIN_GRAPH_W + binary32 (i2f i * ew) ≤
      i2f MARGIN_GRAPH_W + binary32 (i2f j * ew) := by linarith
  have h4 : 0 ≤ i2f MARGIN_GRAPH_W + binary32 (i2f i * ew) := by
    rw [i2f_margin]
    linarith
  simp only [entry_x]
  exact f2i_mono_nonneg (binary32_nonneg h4) (binary32_mono h3)

theorem entry_x_zero (u : Undef) (ew : ℚ) : entry_x u (some ew) 0 = MARGIN_GRAPH_W := by
  have e0 : i2f 0 = 0 := by
    have := i2f_exact 0 (by decide) (by decide)
    simpa using this
  have e7 : binary32 ((7 : Int) : ℚ) = ((7 : Int) : ℚ) :=
    binary32_intCast 7 (by decide) (by decide)
  simp only [entry_x, e0, zero_mul, binary32_zero, add_zero, i2f_margin]
  have : (7 : ℚ) = ((7 : Int) : ℚ) := by norm_num
  rw [this, e7, f2i_intCast]
  rfl

/-- The error of line 49 at the last index: with `a = w - 2 * MARGIN_GRAPH_W` at
most `2 ^ 20` and `b = N - 1`, the rounded `7 + b * (a / b)` is within `5/16` of
`a + 7`. -/
theorem last_sum_bounds (a b : ℚ) (ha0 : 0 ≤ a) (ha1 : a ≤ 1048576) (hb : 1 ≤ b) :
    a + 6 ≤ binary32 (7 + binary32 (b * binary32 (a / b))) ∧
      binary32 (7 + binary32 (b * binary32 (a / b))) < a + 8 := by
  have hbpos : 0 < b := by linarith
  -- the rounded quotient
  have hc0 : 0 ≤ a / b := div_nonneg ha0 (le_of_lt hbpos)
  obtain ⟨c1, c2⟩ := binary32_error hc0
  have p1 : b * binary32 (a / b) ≤ a + a / 16777216 := by
    have := mul_le_mul_of_nonneg_left c1 (le_of_lt hbpos)
    have e : b * (a / b + a / b / 16777216) = a + a / 16777216 := by
      field_simp
      ring
    linarith
  have p2 : a - a / 16777216 ≤ b * binary32 (a / b) := by
    have := mul_le_mul_of_nonneg_left c2 (le_of_lt hbpos)
    have e : b * (a / b - a / b / 16777216) = a - a / 16777216 := by
      field_simp
      ring
    linarith
  have hsm : a / 16777216 ≤ 1 / 16 := by
    rw [div_le_iff₀ (by norm_num)]
    linarith
  have p0 : 0 ≤ b * binary32 (a / b) :=
    mul_nonneg (le_of_lt hbpos) (binary32_nonneg hc0)
  -- the rounded product
  obtain ⟨d1, d2⟩ := binary32_error p0
  have hsm2 : b * binary32 (a / b) / 16777216 ≤ 1 / 8 := by
    rw [div_le_iff₀ (by norm_num)]
    linarith
  -- the rounded sum
  have s0 : 0 ≤ 7 + binary32 (b * binary32 (a / b)) := by
    have := binary32_nonneg p0
    linarith
  obtain ⟨g1, g2⟩ := binary32_error s0
  have hsm3 : (7 + binary32 (b * binary32 (a / b))) / 16777216 ≤ 1 / 8 := by
    rw [div_le_iff₀ (by norm_num)]
    linarith
  constructor <;> linarith

/-- The last x-coordinate in single precision: the truncation of the rounded
`7 + (N - 1) * entry_w` is `w - 7` or `w - 8`. -/
theorem entry_x_last (u : Undef) (w N : Int) (hN : 2 ≤ N) (hw : 2 * MARGIN_GRAPH_W ≤ w)
    (hmax : w - 2 * MARGIN_GRAPH_W ≤ 1048576) :
    w - MARGIN_GRAPH_W - 1 ≤ entry_x u (entry_w w N) (N - 1) ∧
      entry_x u (entry_w w N) (N - 1) ≤ w - MARGIN_GRAPH_W := by
  have hM : MARGIN_GRAPH_W = 7 := rfl
  have ea : i2f (w - 2 * MARGIN_GRAPH_W) = ((w - 2 * MARGIN_GRAPH_W : Int) : ℚ) :=
    i2f_exact _ (by omega) (by omega)
  have hb : 1 ≤ i2f (N - 1) := one_le_i2f (by omega)
  have ha0 : (0 : ℚ) ≤ ((w - 2 * MARGIN_GRAPH_W : Int) : ℚ) := by
    have : 0 ≤ w - 2 * MARGIN_GRAPH_W := by omega
    exact_mod_cast this
  have ha1 : ((w - 2 * MARGIN_GRAPH_W : Int) : ℚ) ≤ 1048576 := by exact_mod_cast hmax
  obtain ⟨lo, hi⟩ := last_sum_bounds _ _ ha0 ha1 hb
  have hnn : 0 ≤ binary32 (7 + binary32 (i2f (N - 1) *
      binary32 (((w - 2 * MARGIN_GRAPH_W : Int) : ℚ) / i2f (N - 1)))) := by linarith
  rw [entry_w_some w N hN]
  simp only [entry_x, i2f_margin, ea]
  rw [f2i_of_nonneg hnn]
  constructor
  · apply Int.le_floor.mpr
    have e : ((w - MARGIN_GRAPH_W - 1 : Int) : ℚ) =
        ((w - 2 * MARGIN_GRAPH_W : Int) : ℚ) + 6 := by
      rw [hM]
      push_cast
      ring
    rw [e]
    exact lo
  · have : ⌊binary32 (7 + binary32 (i2f (N - 1) *
        binary32 (((w - 2 * MARGIN_GRAPH_W : Int) : ℚ) / i2f (N - 1))))⌋ <
        w - MARGIN_GRAPH_W + 1 := by
      apply Int.floor_lt.mpr
      have e : ((w - MARGIN_GRAPH_W + 1 : Int) : ℚ) =
          ((w - 2 * MARGIN_GRAPH_W : Int) : ℚ) + 8 := by
        rw [hM]
        push_cast
        ring
      rw [e]
      exact hi
    omega

/-! ## The loop and the render in the second embedding -/

theorem ieee_loop_body_ok (u : Undef) (h lo range s epl : Int) (ew : Option ℚ) (i : Int)
    (smp : ForecastSample) (he : epl ≠ 0) :
    loop_body u h lo range s epl ew i smp = .ok
      ⟨point_precip h (entry_x u ew i) smp.precipitationProbability,
       point_temp u h lo range (entry_x u ew i) smp.temperature i,
       ok_or [] (entry_decoration h s epl (entry_x u ew i) i)⟩ := by
  obtain ⟨ops, hops⟩ := entry_decoration_ok h s epl (entry_x u ew i) i he
  simp only [loop_body, hops, ok_or]

theorem loop_body_zero (u : Undef) (h lo range s : Int) (ew : Option ℚ) (i : Int)
    (smp : ForecastSample) :
    loop_body u h lo range s 0 ew i smp = .error .label_mod := by
  simp [loop_body, entry_decoration]

/-- With a nonzero `entries_per_label` the loop runs through all samples. -/
theorem ieee_graph_loop_eq (u : Undef) (h lo range s epl : Int) (ew : Option ℚ) (he : epl ≠ 0) :
    ∀ (l : List ForecastSample) (i : Nat) (st : LoopState), st.fault = none →
      graph_loop u h lo range s epl ew i l st =
        ⟨st.points_precip ++ precip_points u h ew i l,
         st.points_temp ++ temp_points u h lo range ew i l,
         st.ops ++ decorations u h s epl ew i l, none⟩ := by
  intro l
  induction l with
  | nil =>
    intro i st hst
    cases st
    simp only at hst
    subst hst
    simp [graph_loop, precip_points, temp_points, decorations]
  | cons smp rest ih =>
    intro i st _
    rw [graph_loop, ieee_loop_body_ok u h lo range s epl ew i smp he]
    simp only
    rw [ih (i + 1) _ rfl]
    simp [precip_points, temp_points, decorations, List.enumFrom_cons, List.append_assoc]


/-- A render with a nonzero `entries_per_label` runs to its end, whatever the
temperatures and the entry width are. -/
theorem ieee_graph_update_proc_run (u : Undef) (bounds : GSize) (d : DataSource)
    (he : entries_per_label u (entry_w bounds.w (persist_get_num_entries d)) ≠ 0) :
    graph_update_proc u bounds d = ⟨full_ops u bounds d, none⟩ := by
  have hl := ieee_graph_loop_eq u bounds.h (min_max (persist_get_temp_trend d)).1
    ((min_max (persist_get_temp_trend d)).2 - (min_max (persist_get_temp_trend d)).1)
    (persist_get_start_hour d) _ (entry_w bounds.w (persist_get_num_entries d)) he d.samples 0
    ⟨[], [], axis_ops bounds.w bounds.h ++ label_color_ops, none⟩ rfl
  simp only [graph_update_proc, hl, List.nil_append, full_ops]

/-- A render without samples runs to its end. -/
theorem graph_update_proc_nil (u : Undef) (bounds : GSize) (s : Int) :
    graph_update_proc u bounds ⟨s, []⟩ = ⟨full_ops u bounds ⟨s, []⟩, none⟩ := by
  simp [graph_update_proc, graph_loop, full_ops, precip_points, temp_points, decorations]

/-- A render over at least one sample with `entries_per_label = 0` stops at the
first `%` of line 61, after the axes and the label colours. -/
theorem graph_update_proc_zero (u : Undef) (bounds : GSize) (s : Int) (smp : ForecastSample)
    (rest : List ForecastSample)
    (he : entries_per_label u (entry_w bounds.w
      (persist_get_num_entries ⟨s, smp :: rest⟩)) = 0) :
    graph_update_proc u bounds ⟨s, smp :: rest⟩ =
      ⟨axis_ops bounds.w bounds.h ++ label_color_ops, some .label_mod⟩ := by
  simp only [graph_update_proc, he, graph_loop, loop_body_zero]

theorem ieee_precip_points_length (u : Undef) (h : Int) (ew : Option ℚ) (i : Nat)
    (l : List ForecastSample) : (precip_points u h ew i l).length = l.length := by
  simp [precip_points]

theorem temp_points_length (u : Undef) (h lo range : Int) (ew : Option ℚ) (i : Nat)
    (l : List ForecastSample) : (temp_points u h lo range ew i l).length = l.length := by
  simp [temp_points]

theorem decorations_kind (u : Undef) (h s epl : Int) (ew : Option ℚ) (i : Nat)
    (l : List ForecastSample) :
    ∀ op ∈ decorations u h s epl ew i l, op.isText = true ∨ op.isLine = true := by
  intro op hop
  simp only [decorations, List.mem_flatMap] at hop
  obtain ⟨⟨j, smp⟩, _, hop⟩ := hop
  cases hdec : entry_decoration h s epl (entry_x u ew j) j with
  | error f =>
    simp [hdec, ok_or] at hop
  | ok ops =>
    simp only [hdec, ok_or] at hop
    rcases entry_decoration_kind hdec with h1 | h1 | h1
    · rw [h1] at hop
      simp only [List.mem_singleton] at hop
      subst hop
      exact Or.inl rfl
    · rw [h1] at hop
      simp only [List.mem_singleton] at hop
      subst hop
      exact Or.inr rfl
    · rw [h1] at hop
      simp at hop

theorem decorations_not_path (u : Undef) (h s epl : Int) (ew : Option ℚ) (i : Nat)
    (l : List ForecastSample) :
    (decorations u h s epl ew i l).filter CtxOp.isPath = [] := by
  rw [List.filter_eq_nil_iff]
  intro op hop
  rcases decorations_kind u h s epl ew i l op hop with h1 | h1 <;>
    cases op <;> simp [CtxOp.isText, CtxOp.isLine, CtxOp.isPath] at h1 ⊢

theorem decorations_explicit (u : Undef) (h s epl : Int) (ew : Option ℚ) (he : epl ≠ 0) :
    ∀ (l : List ForecastSample) (i : Nat),
      decorations u h s epl ew i l =
        (List.range' i l.length).flatMap fun (j : Nat) =>
          if is_label_index epl j then [hour_label h s (entry_x u ew j) j]
          else if is_tick_index epl j then [tick_mark h (entry_x u ew j)]
          else [] := by
  intro l
  induction l with
  | nil => intro i; simp [decorations]
  | cons smp rest ih =>
    intro i
    have ih1 := ih (i + 1)
    simp only [decorations, List.enumFrom_cons, List.flatMap_cons, List.length_cons,
      List.range'_succ] at ih1 ⊢
    rw [ih1, ok_or_entry_decoration h s epl (entry_x u ew i) i he]

/-! ## C1: fewer than two samples -/

theorem round_to_ne_zero (m : Nat) {y : ℚ} (hy : y ≠ 0) : round_to (m + 1) y ≠ 0 := by
  rcases lt_or_gt_of_ne hy with h | h
  · rw [round_to_of_neg _ h]
    have := round_pos_pos m (y := -y) (by linarith)
    linarith
  · exact (round_to_pos m h).ne'

theorem binary32_ne_zero {y : ℚ} (hy : y ≠ 0) : binary32 y ≠ 0 := round_to_ne_zero 23 hy

theorem i2f_ne_zero {n : Int} (hn : n ≠ 0) : i2f n ≠ 0 :=
  binary32_ne_zero (by exact_mod_cast hn)

/-- Without samples the divisor of line 42 is `-1`, and `entry_w`, the divisor of
line 47, is zero only on a canvas of width `2 * MARGIN_GRAPH_W`. -/
theorem entry_w_no_sample (w : Int) (hw : w ≠ 2 * MARGIN_GRAPH_W) :
    ∃ ew : ℚ, entry_w w 0 = some ew ∧ ew ≠ 0 := by
  refine ⟨binary32 (i2f (w - 2 * MARGIN_GRAPH_W) / i2f (0 - 1)), by simp [entry_w], ?_⟩
  apply binary32_ne_zero
  apply div_ne_zero
  · exact i2f_ne_zero (by omega)
  · exact i2f_ne_zero (by decide)

/-- C1 (counterexample).  A data source without samples on a 144 x 60 canvas: the
render is not refused, it draws both axis lines, fills the polygon of the two
closing points and strokes two empty outlines.  With one sample the divisor
`num_entries - 1` of line 42 is zero, and `entry_w` is not a finite number. -/
theorem C1_no_sample_still_draws :
    persist_get_num_entries ⟨6, []⟩ = 0 ∧
    (graph_update_proc (undef_const 0) ⟨144, 60⟩ ⟨6, []⟩).fault = none ∧
    (graph_update_proc (undef_const 0) ⟨144, 60⟩ ⟨6, []⟩).ops.filter CtxOp.isDraw =
      [ .graphics_draw_line ⟨0, 51⟩ ⟨144, 51⟩,
        .graphics_draw_line ⟨0, 0⟩ ⟨0, 51⟩,
        .gpath_draw_filled [⟨137, 51⟩, ⟨7, 51⟩],
        .gpath_draw_outline_open [],
        .gpath_draw_outline_open [] ] ∧
    persist_get_num_entries ⟨6, [⟨20, 50⟩]⟩ - 1 = 0 ∧
    entry_w 144 (persist_get_num_entries ⟨6, [⟨20, 50⟩]⟩) = none := by
  decide!

/-- A render without samples runs to its end: the loop body is never run, and the
draw calls are the two axis lines, the filled polygon of the two closing points
and two empty outlines. -/
theorem graph_update_proc_no_sample (u : Undef) (bounds : GSize) (s : Int) :
    (graph_update_proc u bounds ⟨s, []⟩).fault = none ∧
    (graph_update_proc u bounds ⟨s, []⟩).ops.filter CtxOp.isDraw =
      [ .graphics_draw_line ⟨0, bounds.h - BOTTOM_AXIS_H⟩ ⟨bounds.w, bounds.h - BOTTOM_AXIS_H⟩,
        .graphics_draw_line ⟨0, 0⟩ ⟨0, bounds.h - BOTTOM_AXIS_H⟩,
        .gpath_draw_filled [⟨bounds.w - MARGIN_GRAPH_W, bounds.h - BOTTOM_AXIS_H⟩,
          ⟨MARGIN_GRAPH_W, bounds.h - BOTTOM_AXIS_H⟩],
        .gpath_draw_outline_open [],
        .gpath_draw_outline_open [] ] := by
  rw [graph_update_proc_nil]
  refine ⟨rfl, ?_⟩
  simp [full_ops, axis_ops, label_color_ops, decorations, path_ops, precip_points,
    temp_points, closing_points, CtxOp.isDraw, persist_get_num_entries]

/-- A render over one sample: the divisor `num_entries - 1` of line 42 is zero,
`entry_w` is not finite, and `entries_per_label`, `entry_x` and `temp_h` are
conversions of an infinity or a NaN.  When `entries_per_label` comes out other
than zero the loop body runs once and lines 82-109 follow: the draw calls are
the two axis lines, the hour label of index 0, the filled polygon of the curve
point and the two closing points, and two outlines of one point. -/
theorem graph_update_proc_one_sample (u : Undef) (bounds : GSize) (s : Int)
    (smp : ForecastSample)
    (he : entries_per_label u (entry_w bounds.w (persist_get_num_entries ⟨s, [smp]⟩)) ≠ 0) :
    entry_w bounds.w (persist_get_num_entries ⟨s, [smp]⟩) = none ∧
    (graph_update_proc u bounds ⟨s, [smp]⟩).fault = none ∧
    (graph_update_proc u bounds ⟨s, [smp]⟩).ops.filter CtxOp.isDraw =
      [ .graphics_draw_line ⟨0, bounds.h - BOTTOM_AXIS_H⟩
          ⟨bounds.w, bounds.h - BOTTOM_AXIS_H⟩,
        .graphics_draw_line ⟨0, 0⟩ ⟨0, bounds.h - BOTTOM_AXIS_H⟩,
        hour_label bounds.h s (u.entry_x 0) 0,
        .gpath_draw_filled
          [ ⟨u.entry_x 0,
              bounds.h - BOTTOM_AXIS_H - precip_h bounds.h smp.precipitationProbability⟩,
            ⟨bounds.w - MARGIN_GRAPH_W, bounds.h - BOTTOM_AXIS_H⟩,
            ⟨MARGIN_GRAPH_W, bounds.h - BOTTOM_AXIS_H⟩ ],
        .gpath_draw_outline_open
          [ ⟨u.entry_x 0,
              bounds.h - BOTTOM_AXIS_H - precip_h bounds.h smp.precipitationProbability⟩ ],
        .gpath_draw_outline_open
          [ ⟨u.entry_x 0, bounds.h - u.temp_h 0 - MARGIN_TEMP_H - BOTTOM_AXIS_H⟩ ] ] := by
  have hew : entry_w bounds.w 1 = none := by
    simp [entry_w]
  refine ⟨by simpa [persist_get_num_entries] using hew, ?_⟩
  rw [ieee_graph_update_proc_run u bounds ⟨s, [smp]⟩ he]
  refine ⟨rfl, ?_⟩
  have hd := decorations_explicit u bounds.h s _
    (entry_w bounds.w (persist_get_num_entries ⟨s, [smp]⟩)) he [smp] 0
  have hr : (min_max (persist_get_temp_trend ⟨s, [smp]⟩)).2 -
      (min_max (persist_get_temp_trend ⟨s, [smp]⟩)).1 = 0 := by
    simp [min_max, persist_get_temp_trend]
  simp only [full_ops, persist_get_start_hour, hd, hr]
  simp [hew, axis_ops, label_color_ops, path_ops, precip_points, temp_points,
    closing_points, CtxOp.isDraw, persist_get_num_entries, is_label_index, hour_label,
    point_precip, point_temp, entry_x, temp_h, List.enumFrom]

/-- C1 (amended).  `graph_update_proc` has no check of the sample count.  For
every data source that reports fewer than 2 samples, every canvas and every
result of the undefined conversions, the draw calls begin with the bottom axis
line and the left axis line.  With `N = 0` the render runs to its end and its
draw calls are exactly these two lines, the filled polygon of the two closing
points and two empty outlines; on a canvas whose width is not
`2 * MARGIN_GRAPH_W` it does so without a zero divisor (`entry_w`, the one
divisor that is evaluated other than `num_entries - 1 = -1`, is finite and not
zero, and the loop body is never run). -/
theorem C1_fewer_than_two_samples_render (u : Undef) (bounds : GSize) (d : DataSource)
    (hN : persist_get_num_entries d < 2) :
    (∃ rest : List CtxOp,
      (graph_update_proc u bounds d).ops.filter CtxOp.isDraw =
        .graphics_draw_line ⟨0, bounds.h - BOTTOM_AXIS_H⟩ ⟨bounds.w, bounds.h - BOTTOM_AXIS_H⟩ ::
        .graphics_draw_line ⟨0, 0⟩ ⟨0, bounds.h - BOTTOM_AXIS_H⟩ :: rest) ∧
    (persist_get_num_entries d = 0 →
      (graph_update_proc u bounds d).fault = none ∧
      (graph_update_proc u bounds d).ops.filter CtxOp.isDraw =
        [ .graphics_draw_line ⟨0, bounds.h - BOTTOM_AXIS_H⟩
            ⟨bounds.w, bounds.h - BOTTOM_AXIS_H⟩,
          .graphics_draw_line ⟨0, 0⟩ ⟨0, bounds.h - BOTTOM_AXIS_H⟩,
          .gpath_draw_filled [⟨bounds.w - MARGIN_GRAPH_W, bounds.h - BOTTOM_AXIS_H⟩,
            ⟨MARGIN_GRAPH_W, bounds.h - BOTTOM_AXIS_H⟩],
          .gpath_draw_outline_open [],
          .gpath_draw_outline_open [] ]) ∧
    (persist_get_num_entries d = 0 → bounds.w ≠ 2 * MARGIN_GRAPH_W →
      d.samples = [] ∧
      ∃ ew : ℚ, entry_w bounds.w (persist_get_num_entries d) = some ew ∧ ew ≠ 0) := by
  obtain ⟨s, samples⟩ := d
  refine ⟨?_, ?_, ?_⟩
  · cases samples with
    | nil => exact ⟨_, (graph_update_proc_no_sample u bounds s).2⟩
    | cons smp rest =>
      by_cases he : entries_per_label u
          (entry_w bounds.w (persist_get_num_entries ⟨s, smp :: rest⟩)) = 0
      · rw [graph_update_proc_zero u bounds s smp rest he]
        exact ⟨[], by simp [axis_ops, label_color_ops, CtxOp.isDraw]⟩
      · have hrest : rest = [] := by
          simp only [persist_get_num_entries, List.length_cons] at hN
          cases rest with
          | nil => rfl
          | cons a b => simp only [List.length_cons] at hN; omega
        subst hrest
        exact ⟨_, (graph_update_proc_one_sample u bounds s smp he).2.2⟩
  · intro h0
    have : samples = [] := by
      simpa [persist_get_num_entries] using h0
    subst this
    exact graph_update_proc_no_sample u bounds s
  · intro h0 hw
    have : samples = [] := by
      simpa [persist_get_num_entries] using h0
    refine ⟨this, ?_⟩
    rw [h0]
    exact entry_w_no_sample bounds.w hw

/-- No sample on a 100 x 40 canvas: five draw calls and no zero divisor. -/
theorem C1_fewer_than_two_samples_render_witness :
    persist_get_num_entries ⟨6, []⟩ < 2 ∧
    ((graph_update_proc (undef_const 1) ⟨100, 40⟩ ⟨6, []⟩).fault = none ∧
      (graph_update_proc (undef_const 1) ⟨100, 40⟩ ⟨6, []⟩).ops.filter CtxOp.isDraw =
        [ .graphics_draw_line ⟨0, 40 - BOTTOM_AXIS_H⟩ ⟨100, 40 - BOTTOM_AXIS_H⟩,
          .graphics_draw_line ⟨0, 0⟩ ⟨0, 40 - BOTTOM_AXIS_H⟩,
          .gpath_draw_filled [⟨100 - MARGIN_GRAPH_W, 40 - BOTTOM_AXIS_H⟩,
            ⟨MARGIN_GRAPH_W, 40 - BOTTOM_AXIS_H⟩],
          .gpath_draw_outline_open [],
          .gpath_draw_outline_open [] ]) ∧
    ((⟨6, []⟩ : DataSource).samples = [] ∧
      ∃ ew : ℚ, entry_w 100 (persist_get_num_entries ⟨6, []⟩) = some ew ∧ ew ≠ 0) :=
  ⟨by decide,
   (C1_fewer_than_two_samples_render (undef_const 1) ⟨100, 40⟩ ⟨6, []⟩ (by decide)).2.1 rfl,
   (C1_fewer_than_two_samples_render (undef_const 1) ⟨100, 40⟩ ⟨6, []⟩ (by decide)).2.2 rfl
     (by decide)⟩

/-! ## C12, C13: what a render hands to the drawing context -/

theorem ieee_full_ops_path (u : Undef) (bounds : GSize) (d : DataSource) :
    (full_ops u bounds d).filter CtxOp.isPath =
      [ .gpath_draw_filled
          (precip_points u bounds.h (entry_w bounds.w (persist_get_num_entries d)) 0 d.samples ++
            closing_points bounds.w bounds.h),
        .gpath_draw_outline_open
          (precip_points u bounds.h (entry_w bounds.w (persist_get_num_entries d)) 0 d.samples),
        .gpath_draw_outline_open
          (temp_points u bounds.h (min_max (persist_get_temp_trend d)).1
            ((min_max (persist_get_temp_trend d)).2 - (min_max (persist_get_temp_trend d)).1)
            (entry_w bounds.w (persist_get_num_entries d)) 0 d.samples) ] := by
  have htake : (precip_points u bounds.h (entry_w bounds.w (persist_get_num_entries d)) 0
      d.samples ++ closing_points bounds.w bounds.h).take (persist_get_num_entries d).toNat =
      precip_points u bounds.h (entry_w bounds.w (persist_get_num_entries d)) 0 d.samples := by
    rw [num_entries_toNat]
    exact List.take_left' (ieee_precip_points_length _ _ _ _ _)
  rw [full_ops, full_ops_path _ _ _ _ _ _ (decorations_not_path _ _ _ _ _ _ _), htake]

/-- C12.  For every sample set with `N >= 2`, whatever its temperatures, every
canvas and every result of the undefined conversions: unless
`entries_per_label` is zero, which makes line 61 evaluate `i % 0` and which does
not happen on a canvas wider than both side margins, the render runs to its end
and its path draw calls are, in order, the filled precipitation polygon of
`N + 2` points (`N` curve points and the two closing points), the precipitation
outline over the first `N` points of that polygon (the curve points, without
the closing points), and the temperature outline of `N` points. -/
theorem C12_points_handed_over (u : Undef) (bounds : GSize) (d : DataSource)
    (hN : 2 ≤ persist_get_num_entries d) :
    (2 * MARGIN_GRAPH_W < bounds.w → bounds.w ≤ 16777216 →
      entries_per_label u (entry_w bounds.w (persist_get_num_entries d)) ≠ 0) ∧
    (entries_per_label u (entry_w bounds.w (persist_get_num_entries d)) ≠ 0 →
      (graph_update_proc u bounds d).fault = none ∧
      ∃ poly temps : List GPoint,
        (graph_update_proc u bounds d).ops.filter CtxOp.isPath =
          [ .gpath_draw_filled poly,
            .gpath_draw_outline_open (poly.take d.samples.length),
            .gpath_draw_outline_open temps ] ∧
        temps.length = d.samples.length ∧
        poly.length = d.samples.length + 2 ∧
        (poly.take d.samples.length).length = d.samples.length ∧
        poly = poly.take d.samples.length ++
          [⟨bounds.w - MARGIN_GRAPH_W, bounds.h - BOTTOM_AXIS_H⟩,
            ⟨MARGIN_GRAPH_W, bounds.h - BOTTOM_AXIS_H⟩]) := by
  refine ⟨?_, ?_⟩
  · intro hw hmax
    have := entries_per_label_ge_one u bounds.w (persist_get_num_entries d) hN hw hmax
    omega
  · intro he
    have hlen := ieee_precip_points_length u bounds.h
      (entry_w bounds.w (persist_get_num_entries d)) 0 d.samples
    have htake : (precip_points u bounds.h (entry_w bounds.w (persist_get_num_entries d)) 0
        d.samples ++ closing_points bounds.w bounds.h).take d.samples.length =
        precip_points u bounds.h (entry_w bounds.w (persist_get_num_entries d)) 0 d.samples :=
      List.take_left' hlen
    rw [ieee_graph_update_proc_run u bounds d he]
    refine ⟨rfl, precip_points u bounds.h (entry_w bounds.w (persist_get_num_entries d)) 0
        d.samples ++ closing_points bounds.w bounds.h,
      temp_points u bounds.h (min_max (persist_get_temp_trend d)).1
        ((min_max (persist_get_temp_trend d)).2 - (min_max (persist_get_temp_trend d)).1)
        (entry_w bounds.w (persist_get_num_entries d)) 0 d.samples,
      ?_, temp_points_length _ _ _ _ _ _ _, ?_, ?_, ?_⟩
    · rw [ieee_full_ops_path, htake]
    · simp [hlen, closing_points]
    · rw [htake, hlen]
    · rw [htake]
      rfl

/-- Two samples of 20 degrees (`lo = hi`) on a 144 x 60 canvas, with undefined
conversions that give 0: the render runs to its end and hands over a polygon of
4 points and two outlines of 2 points. -/
theorem C12_points_handed_over_witness :
    (2 ≤ persist_get_num_entries ⟨6, [⟨20, 0⟩, ⟨20, 50⟩]⟩) ∧
    (graph_update_proc (undef_const 0) ⟨144, 60⟩ ⟨6, [⟨20, 0⟩, ⟨20, 50⟩]⟩).fault = none ∧
    (graph_update_proc (undef_const 0) ⟨144, 60⟩ ⟨6, [⟨20, 0⟩, ⟨20, 50⟩]⟩).ops.filter
        CtxOp.isPath =
      [ .gpath_draw_filled [⟨7, 51⟩, ⟨137, 26⟩, ⟨137, 51⟩, ⟨7, 51⟩],
        .gpath_draw_outline_open [⟨7, 51⟩, ⟨137, 26⟩],
        .gpath_draw_outline_open [⟨7, 44⟩, ⟨137, 44⟩] ] :=
  ⟨by decide,
   ((C12_points_handed_over (undef_const 0) ⟨144, 60⟩ ⟨6, [⟨20, 0⟩, ⟨20, 50⟩]⟩
      (by decide)).2 (by decide!)).1,
   by decide!⟩

/-- C15 (counterexample).  On a canvas of height 59 with probability 58, line 53
computes `58 / 100.0` and the product with 50 in double precision, which gives a
value just below 29 and `precip_h = 28`: the point has `y = 22`, while the exact
value of `58/100 * 50` is 29, for which the claim's formula gives `y = 21`. -/
theorem C15_double_product_below_exact :
    BOTTOM_AXIS_H ≤ (59 : Int) ∧ (58 : Int) ≤ 100 ∧
    binary64 (binary64 (i2f 58 / 100) * i2d (59 - BOTTOM_AXIS_H)) < 29 ∧
    precip_h 59 58 = 28 ∧
    (point_precip 59 72 58).y = 22 ∧
    (59 - BOTTOM_AXIS_H) - f2i ((58 : ℚ) / 100 * ((59 - BOTTOM_AXIS_H : Int) : ℚ)) = 21 := by
  decide!

/-- C15 (amended).  For every canvas height `h >= BOTTOM_AXIS_H` (an `int`, so that
`h - BOTTOM_AXIS_H < 2 ^ 53`) and every precipitation probability `p` in
`[0, 100]` the precipitation point has
`y = (h - BOTTOM_AXIS_H) - trunc(p/100 * (h - BOTTOM_AXIS_H))`, the quotient and
the product evaluated in double precision as line 53 does; `y` lies in
`[0, h - BOTTOM_AXIS_H]`, is the baseline `h - BOTTOM_AXIS_H` for `p = 0`, is `0`
for `p = 100`, and does not increase when `p` increases. -/
theorem C15_precipitation_point_double (h ex : Int) (p : Nat) (hh : BOTTOM_AXIS_H ≤ h)
    (hmax : h - BOTTOM_AXIS_H < 2 ^ 53) (hp : p ≤ 100) :
    point_precip h ex p =
      ⟨ex, (h - BOTTOM_AXIS_H) -
        f2i (binary64 (binary64 (((p : Int) : ℚ) / 100) * ((h - BOTTOM_AXIS_H : Int) : ℚ)))⟩ ∧
    0 ≤ (point_precip h ex p).y ∧
    (point_precip h ex p).y ≤ h - BOTTOM_AXIS_H ∧
    (point_precip h ex ((0 : Nat) : Int)).y = h - BOTTOM_AXIS_H ∧
    (point_precip h ex ((100 : Nat) : Int)).y = 0 ∧
    (∀ q : Nat, p ≤ q → q ≤ 100 → (point_precip h ex q).y ≤ (point_precip h ex p).y) := by
  have hB : BOTTOM_AXIS_H = 9 := rfl
  have ep : i2f (p : Int) = ((p : Int) : ℚ) := i2f_exact _ (by omega) (by omega)
  have eh : i2d (h - BOTTOM_AXIS_H) = ((h - BOTTOM_AXIS_H : Int) : ℚ) :=
    i2d_exact _ (by omega) (by norm_num at hmax; omega)
  have hs : (0 : ℚ) ≤ ((h - BOTTOM_AXIS_H : Int) : ℚ) := by
    have : 0 ≤ h - BOTTOM_AXIS_H := by omega
    exact_mod_cast this
  have key : ∀ q : Nat, q ≤ 100 →
      0 ≤ binary64 (binary64 (i2f (q : Int) / 100) * ((h - BOTTOM_AXIS_H : Int) : ℚ)) ∧
      binary64 (binary64 (i2f (q : Int) / 100) * ((h - BOTTOM_AXIS_H : Int) : ℚ)) ≤
        ((h - BOTTOM_AXIS_H : Int) : ℚ) := by
    intro q hq
    obtain ⟨f0, f1⟩ := precip_fraction_bounds q hq
    refine ⟨binary64_nonneg (mul_nonneg f0 hs), ?_⟩
    have h2 : binary64 (i2f (q : Int) / 100) * ((h - BOTTOM_AXIS_H : Int) : ℚ) ≤
        ((h - BOTTOM_AXIS_H : Int) : ℚ) := mul_le_of_le_one_left hs f1
    have h3 := binary64_mono h2
    have h4 : binary64 ((h - BOTTOM_AXIS_H : Int) : ℚ) = ((h - BOTTOM_AXIS_H : Int) : ℚ) := eh
    rw [h4] at h3
    exact h3
  have bnd : ∀ q : Nat, q ≤ 100 → 0 ≤ precip_h h q ∧ precip_h h q ≤ h - BOTTOM_AXIS_H := by
    intro q hq
    obtain ⟨k0, k1⟩ := key q hq
    unfold precip_h
    rw [eh]
    refine ⟨f2i_nonneg k0, ?_⟩
    have := f2i_mono_nonneg k0 k1
    rw [f2i_intCast] at this
    exact this
  obtain ⟨b0, b1⟩ := bnd p hp
  refine ⟨?_, ?_, ?_, ?_, ?_, ?_⟩
  · simp only [point_precip, precip_h, ep, eh]
  · simp only [point_precip]
    omega
  · simp only [point_precip]
    omega
  · have z : precip_h h ((0 : Nat) : Int) = 0 := by
      unfold precip_h
      have e0 : i2f ((0 : Nat) : Int) = 0 := by
        have := i2f_exact 0 (by decide) (by decide)
        simpa using this
      rw [e0, zero_div, binary64_zero, zero_mul, binary64_zero]
      rfl
    simp only [point_precip, z]
    omega
  · have z : precip_h h ((100 : Nat) : Int) = h - BOTTOM_AXIS_H := by
      unfold precip_h
      have e100 : i2f ((100 : Nat) : Int) = 100 := by
        have := i2f_exact 100 (by decide) (by decide)
        simpa using this
      rw [e100, div_self (by norm_num), binary64_one, one_mul, eh]
      have : binary64 ((h - BOTTOM_AXIS_H : Int) : ℚ) = ((h - BOTTOM_AXIS_H : Int) : ℚ) := eh
      rw [this, f2i_intCast]
    simp only [point_precip, z]
    omega
  · intro q hpq hq
    obtain ⟨k0, _⟩ := key p hp
    have hm := precip_fraction_mono p q hpq hq
    have h2 : binary64 (i2f (p : Int) / 100) * ((h - BOTTOM_AXIS_H : Int) : ℚ) ≤
        binary64 (i2f (q : Int) / 100) * ((h - BOTTOM_AXIS_H : Int) : ℚ) :=
      mul_le_mul_of_nonneg_right hm hs
    have h3 := f2i_mono_nonneg k0 (binary64_mono h2)
    have e1 : precip_h h p = f2i (binary64 (binary64 (i2f (p : Int) / 100) *
        ((h - BOTTOM_AXIS_H : Int) : ℚ))) := by
      unfold precip_h
      rw [eh]
    have e2 : precip_h h q = f2i (binary64 (binary64 (i2f (q : Int) / 100) *
        ((h - BOTTOM_AXIS_H : Int) : ℚ))) := by
      unfold precip_h
      rw [eh]
    simp only [point_precip, e1, e2]
    omega

/-- A probability of 58 on a canvas of height 59: the double product is just
below 29, so `y = 50 - 28 = 22`. -/
theorem C15_precipitation_point_double_witness :
    BOTTOM_AXIS_H ≤ (59 : Int) ∧ (59 : Int) - BOTTOM_AXIS_H < 2 ^ 53 ∧ (58 : Nat) ≤ 100 ∧
    point_precip 59 72 ((58 : Nat) : Int) = ⟨72, 22⟩ ∧
    (0 : Int) ≤ (point_precip 59 72 ((58 : Nat) : Int)).y ∧
    (point_precip 59 72 ((58 : Nat) : Int)).y ≤ 59 - BOTTOM_AXIS_H :=
  ⟨by decide, by decide, by decide, by decide!,
    (C15_precipitation_point_double 59 72 58 (by decide) (by decide) (by decide)).2.1,
    (C15_precipitation_point_double 59 72 58 (by decide) (by decide) (by decide)).2.2.1⟩

/-! ## C16: the x-coordinates in single precision -/

theorem precip_points_x (u : Undef) (h : Int) (ew : Option ℚ) :
    ∀ (l : List ForecastSample) (i : Nat),
      (precip_points u h ew i l).map GPoint.x =
        (List.range' i l.length).map fun (j : Nat) => entry_x u ew j := by
  intro l
  induction l with
  | nil => intro i; rfl
  | cons a rest ih =>
    intro i
    have := ih (i + 1)
    simp only [precip_points, List.map_map] at this
    simp only [precip_points, List.enumFrom_cons, List.length_cons, List.range'_succ,
      List.map_cons, List.map_map, this]
    rfl

theorem temp_points_x (u : Undef) (h lo range : Int) (ew : Option ℚ) :
    ∀ (l : List ForecastSample) (i : Nat),
      (temp_points u h lo range ew i l).map GPoint.x =
        (List.range' i l.length).map fun (j : Nat) => entry_x u ew j := by
  intro l
  induction l with
  | nil => intro i; rfl
  | cons a rest ih =>
    intro i
    have := ih (i + 1)
    simp only [temp_points, List.map_map] at this
    simp only [temp_points, List.enumFrom_cons, List.length_cons, List.range'_succ,
      List.map_cons, List.map_map, this]
    rfl

/-- C16 (counterexample).  On a canvas of width 200 with 12 samples the single
precision quotient `186 / 11` is below the exact one, the product `11 * entry_w`
is below 186, and the last point has `x = 192`, not `w - MARGIN_GRAPH_W = 193`:
the first closing point is one pixel to the right of the last curve point. -/
theorem C16_last_x_below_right_margin :
    (2 : Int) ≤ 12 ∧ 2 * MARGIN_GRAPH_W ≤ (200 : Int) ∧
    (∃ ew : ℚ, entry_w 200 12 = some ew ∧ ew < (200 - 2 * MARGIN_GRAPH_W : ℚ) / (12 - 1)) ∧
    entry_x (undef_const 0) (entry_w 200 12) (12 - 1) = 192 ∧
    (200 : Int) - MARGIN_GRAPH_W = 193 ∧
    (closing_points 200 60).map GPoint.x = [193, 7] := by
  refine ⟨by decide, by decide, ⟨_, rfl, by decide!⟩, by decide!, by decide, by decide⟩

/-- C16 (amended).  For every `N >= 2` and every canvas width `w` with
`2 * MARGIN_GRAPH_W <= w <= 2 ^ 20 + 2 * MARGIN_GRAPH_W`, with `entry_w` the
single precision quotient of line 42, which is finite and not negative: the
x-coordinate of index `i` is the truncation of the single precision sum
`MARGIN_GRAPH_W + i * entry_w`, computed from `i` alone; the precipitation point
and the temperature point of index `i` both have this x; x is non-decreasing in
`i`; the first point has `x = MARGIN_GRAPH_W`, and the last point has
`x = w - MARGIN_GRAPH_W` or `x = w - MARGIN_GRAPH_W - 1`, so the second closing
point lies directly below the first curve point, and the first closing point
directly below the last curve point or one pixel to its right.  Unless
`entries_per_label` is zero, which makes line 61 evaluate `i % 0` and which does
not happen on a canvas wider than both side margins, the render runs to its end
and hands these points to the three path calls. -/
theorem C16_entry_x_single (u : Undef) (bounds : GSize) (d : DataSource)
    (hN : 2 ≤ persist_get_num_entries d) (hw : 2 * MARGIN_GRAPH_W ≤ bounds.w)
    (hmax : bounds.w - 2 * MARGIN_GRAPH_W ≤ 1048576) :
    ∃ ew : ℚ,
      entry_w bounds.w (persist_get_num_entries d) = some ew ∧ 0 ≤ ew ∧
      (∀ i : Int, entry_x u (some ew) i =
        f2i (binary32 (i2f MARGIN_GRAPH_W + binary32 (i2f i * ew)))) ∧
      (precip_points u bounds.h (some ew) 0 d.samples).map GPoint.x =
        (List.range d.samples.length).map (fun (i : Nat) => entry_x u (some ew) i) ∧
      (temp_points u bounds.h (min_max (persist_get_temp_trend d)).1
          ((min_max (persist_get_temp_trend d)).2 - (min_max (persist_get_temp_trend d)).1)
          (some ew) 0 d.samples).map GPoint.x =
        (List.range d.samples.length).map (fun (i : Nat) => entry_x u (some ew) i) ∧
      (∀ i j : Int, 0 ≤ i → i ≤ j → entry_x u (some ew) i ≤ entry_x u (some ew) j) ∧
      entry_x u (some ew) 0 = MARGIN_GRAPH_W ∧
      (entry_x u (some ew) (persist_get_num_entries d - 1) = bounds.w - MARGIN_GRAPH_W ∨
        entry_x u (some ew) (persist_get_num_entries d - 1) = bounds.w - MARGIN_GRAPH_W - 1) ∧
      (closing_points bounds.w bounds.h).map GPoint.x =
        [bounds.w - MARGIN_GRAPH_W, MARGIN_GRAPH_W] ∧
      (2 * MARGIN_GRAPH_W < bounds.w →
        entries_per_label u (entry_w bounds.w (persist_get_num_entries d)) ≠ 0) ∧
      (entries_per_label u (entry_w bounds.w (persist_get_num_entries d)) ≠ 0 →
        (graph_update_proc u bounds d).fault = none ∧
        (graph_update_proc u bounds d).ops.filter CtxOp.isPath =
          [ .gpath_draw_filled
              (precip_points u bounds.h (some ew) 0 d.samples ++
                closing_points bounds.w bounds.h),
            .gpath_draw_outline_open (precip_points u bounds.h (some ew) 0 d.samples),
            .gpath_draw_outline_open
              (temp_points u bounds.h (min_max (persist_get_temp_trend d)).1
                ((min_max (persist_get_temp_trend d)).2 -
                  (min_max (persist_get_temp_trend d)).1)
                (some ew) 0 d.samples) ]) := by
  have hM : MARGIN_GRAPH_W = 7 := rfl
  have hsome := entry_w_some bounds.w (persist_get_num_entries d) hN
  have hb := entry_w_bounds bounds.w (persist_get_num_entries d) hN hw (by omega)
  have hlast := entry_x_last u bounds.w (persist_get_num_entries d) hN hw hmax
  rw [hsome] at hlast
  refine ⟨_, hsome, hb.1, fun i => rfl, ?_, ?_, ?_, entry_x_zero u _, ?_, rfl, ?_, ?_⟩
  · rw [precip_points_x, List.range_eq_range']
  · rw [temp_points_x, List.range_eq_range']
  · intro i j hi hij
    exact entry_x_mono u hb.1 hi hij
  · omega
  · intro hw2
    have := entries_per_label_ge_one u bounds.w (persist_get_num_entries d) hN hw2 (by omega)
    omega
  · intro he
    rw [ieee_graph_update_proc_run u bounds d he]
    exact ⟨rfl, by rw [ieee_full_ops_path, hsome]⟩

/-- Twelve samples on a canvas of width 200: the last point has `x = 192`, one
pixel left of the first closing point. -/
theorem C16_entry_x_single_witness :
    (2 ≤ persist_get_num_entries ⟨6, List.replicate 12 ⟨20, 50⟩⟩) ∧
    (2 * MARGIN_GRAPH_W ≤ (⟨200, 60⟩ : GSize).w) ∧
    ((⟨200, 60⟩ : GSize).w - 2 * MARGIN_GRAPH_W ≤ 1048576) ∧
    ∃ ew : ℚ,
      entry_w 200 (persist_get_num_entries ⟨6, List.replicate 12 ⟨20, 50⟩⟩) = some ew ∧
      entry_x (undef_const 0) (some ew) 0 = MARGIN_GRAPH_W ∧
      (entry_x (undef_const 0) (some ew)
          (persist_get_num_entries ⟨6, List.replicate 12 ⟨20, 50⟩⟩ - 1) =
          200 - MARGIN_GRAPH_W ∨
        entry_x (undef_const 0) (some ew)
          (persist_get_num_entries ⟨6, List.replicate 12 ⟨20, 50⟩⟩ - 1) =
          200 - MARGIN_GRAPH_W - 1) :=
  ⟨by decide, by decide, by decide,
    (C16_entry_x_single (undef_const 0) ⟨200, 60⟩ ⟨6, List.replicate 12 ⟨20, 50⟩⟩
      (by decide) (by decide) (by decide)).imp
      fun _ h => ⟨h.1, h.2.2.2.2.2.2.1, h.2.2.2.2.2.2.2.1⟩⟩

end Ieee

end GraphLayer
